import Mathlib

/-!
Verification of the customers-table repository: a shallow embedding of the
URL query codec, the table-state operations, the fetch coordination and the
pager-button layout of src/hooks/usePaginatedTable.ts, and of the mock API
endpoint src/pages/api/customers.ts, together with theorems for the claims
about them.
-/

namespace CustomersTable

/-! ### JavaScript primitives -/

/-- Decimal digit character (building block of JS String(n)). -/
def digitChar : Nat → Char
  | 0 => '0'
  | 1 => '1'
  | 2 => '2'
  | 3 => '3'
  | 4 => '4'
  | 5 => '5'
  | 6 => '6'
  | 7 => '7'
  | 8 => '8'
  | _ => '9'

/-- Little-endian decimal digits of a natural number, with fuel giving
structural recursion. -/
def natDigitsRev : Nat → Nat → List Char
  | 0, _ => []
  | _ + 1, 0 => []
  | fuel + 1, n + 1 => digitChar ((n + 1) % 10) :: natDigitsRev fuel ((n + 1) / 10)

/-- Decimal rendering of a natural number, as JS String(n). -/
def natToString (n : Nat) : String :=
  if n = 0 then "0" else ⟨(natDigitsRev n n).reverse⟩

/-- Decimal rendering of an integer, as JS String(i) for integral numbers. -/
def intToString (i : Int) : String :=
  if i < 0 then "-" ++ natToString i.natAbs else natToString i.toNat

/-- JS whitespace test, restricted to ASCII whitespace (no claim involves
other whitespace code points). -/
def jsWs (c : Char) : Bool := c = ' ' || c = '\t' || c = '\n' || c = '\r'

/-- Numeric value of a decimal digit character. -/
def digitVal (c : Char) : Nat := c.toNat - 48

/-- Value of a list of decimal digit characters, most significant first. -/
def digitsVal (l : List Char) : Nat := l.foldl (fun a c => a * 10 + digitVal c) 0

/-- Leading-sign handling of JS parseInt. -/
def parseSign : List Char → Int × List Char
  | [] => (1, [])
  | c :: t => if c = '-' then ((-1 : Int), t) else if c = '+' then ((1 : Int), t) else (1, c :: t)

/-- An ASCII decimal digit. -/
def isDigitChar (c : Char) : Bool := 48 ≤ c.toNat && c.toNat ≤ 57

/-- The sign and digit-run reading of JS parseInt, after whitespace. -/
def jsParseIntCore (d : List Char) : Option Int :=
  if (parseSign d).2.takeWhile isDigitChar = [] then none
  else some ((parseSign d).1 * (digitsVal ((parseSign d).2.takeWhile isDigitChar) : Int))

/-- Model of parseInt(s, 10): skip leading whitespace, read an optional
sign, then the longest run of decimal digits; no digits means NaN, which is
modelled as none.  (The radix-free parseInt call in the hook differs only
on hex-prefixed inputs, which no claim involves.) -/
def jsParseInt (s : String) : Option Int :=
  jsParseIntCore (s.data.dropWhile jsWs)

/-- The JS expression (x || fallback) on numbers: NaN (none) and 0 are
falsy. -/
def jsOrInt (o : Option Int) (fb : Int) : Int :=
  match o with
  | none => fb
  | some n => if n = 0 then fb else n

/-- The JS expression (x || fallback) on strings: the empty string is
falsy, as is undefined (none). -/
def jsOrStr (o : Option String) (fb : String) : String :=
  match o with
  | none => fb
  | some s => if s = "" then fb else s

/-- First segment of value.split applied at the colon character. -/
def splitColonHead (s : String) : String :=
  ⟨s.data.takeWhile (fun c => c != ':')⟩

/-- Second segment of value.split at the colon character; none when the
value has no colon (index 1 of the JS split array is undefined then). -/
def splitColonSecond (s : String) : Option String :=
  match s.data.dropWhile (fun c => c != ':') with
  | [] => none
  | _ :: t => some ⟨t.takeWhile (fun c => c != ':')⟩

/-- The regex match against filter-bracket keys: the key must start with
the 8-character opener, end with a closing bracket, and have at least one
character in between; the capture is everything between the opener and the
final bracket (the dot-plus of the regex is greedy). -/
def matchFilterKey (key : String) : Option String :=
  if key.data.take 8 = ("filters[").data ∧ key.data.getLast? = some ']' ∧
      10 ≤ key.data.length then
    some ⟨(key.data.drop 8).dropLast⟩
  else none

/-- JS object property assignment on an insertion-ordered association
list: an existing key keeps its position and receives the new value, a new
key is appended at the end. -/
def objSet (fs : List (String × String)) (k v : String) : List (String × String) :=
  if fs.any (fun p => p.1 == k) then fs.map (fun p => if p.1 = k then (k, v) else p)
  else fs ++ [(k, v)]

/-- JS object property read: the entry under the key, if any. -/
def lookupF (fs : List (String × String)) (k : String) : Option String :=
  (fs.find? (fun p => p.1 == k)).map (fun p => p.2)

/-- URLSearchParams.set: replace the value at the first occurrence of the
key and delete any later occurrences; append when the key is absent. -/
def urlSet : List (String × String) → String → String → List (String × String)
  | [], k, v => [(k, v)]
  | p :: ps, k, v =>
    if p.1 = k then (k, v) :: ps.filter (fun r => r.1 != k) else p :: urlSet ps k v

/-- URLSearchParams.get: the first value under the key, null (none) when
absent. -/
def getParam (ps : List (String × String)) (k : String) : Option String :=
  (ps.find? (fun p => p.1 == k)).map (fun p => p.2)

/-! ### Table state and the URL codec (src/hooks/usePaginatedTable.ts) -/

/-- The sort component.  The source annotates dir as asc or desc, but
readFromUrl can inject any string through its unchecked cast, so dir is
modelled as a string. -/
structure SortSpec where
  key : String
  dir : String
deriving DecidableEq

/-- TableState: page and pageSize are JS numbers used integrally; filter
values travel as strings across the transport boundary (spec section 9),
so the open filter map is an insertion-ordered string association list. -/
structure State where
  page : Int
  pageSize : Int
  query : String
  sort : Option SortSpec
  filters : List (String × String)
deriving DecidableEq

/-- defaultParams: always set page and pageSize; set q only when the query
is non-empty; set sort as key:dir when present; set each filter whose
value is neither null nor the empty string, under a bracketed key. -/
def defaultParams (s : State) : List (String × String) :=
  let p := urlSet [] "page" (intToString s.page)
  let p := urlSet p "pageSize" (intToString s.pageSize)
  let p := if s.query = "" then p else urlSet p "q" s.query
  let p := match s.sort with
    | some so => urlSet p "sort" (so.key ++ ":" ++ so.dir)
    | none => p
  s.filters.foldl
    (fun acc kv => if kv.2 = "" then acc else urlSet acc ("filters[" ++ kv.1 ++ "]") kv.2) p

/-- One step of the forEach over the query parameters: a key matching the
filter-bracket regex overlays the captured filter name with the value. -/
def decodeFilterStep (fs : List (String × String)) (kv : String × String) :
    List (String × String) :=
  match matchFilterKey kv.1 with
  | some name => objSet fs name kv.2
  | none => fs

/-- readFromUrl, with the parsed URL query given as the parameter list:
page and pageSize fall back when parseInt yields NaN or 0; q falls back
only when absent; a non-empty sort value is split at the colon with the
direction defaulting to asc; the filters of the fallback are copied and
then overlaid with every bracketed filter pair found among the
parameters. -/
def readFromUrl (ps : List (String × String)) (fallback : State) : State :=
  let page := jsOrInt (jsParseInt ((getParam ps "page").getD "")) fallback.page
  let pageSize := jsOrInt (jsParseInt ((getParam ps "pageSize").getD "")) fallback.pageSize
  let query := (getParam ps "q").getD fallback.query
  let sort := match getParam ps "sort" with
    | none => fallback.sort
    | some sp =>
      if sp = "" then fallback.sort
      else some { key := splitColonHead sp, dir := jsOrStr (splitColonSecond sp) "asc" }
  let filters := ps.foldl decodeFilterStep fallback.filters
  { page := page, pageSize := pageSize, query := query, sort := sort, filters := filters }

/-- Statement helper: the filter pairs that defaultParams emits, as one
list (the bracketed key together with the value, for each filter whose
value is non-empty). -/
def filterPairs (fs : List (String × String)) : List (String × String) :=
  fs.filterMap (fun kv => if kv.2 = "" then none else some ("filters[" ++ kv.1 ++ "]", kv.2))

/-- Statement helper: the filter name and value pairs that readFromUrl
recovers from the query parameters, in parameter order. -/
def decodedPairs (ps : List (String × String)) : List (String × String) :=
  ps.filterMap (fun kv => (matchFilterKey kv.1).map (fun name => (name, kv.2)))

/-! ### The state operations returned by the hook -/

/-- setQuery: set the query text and reset page to 1. -/
def setQuery (st : State) (q : String) : State := { st with query := q, page := 1 }

/-- setFilter: merge one filter entry and reset page to 1. -/
def setFilter (st : State) (k v : String) : State :=
  { st with filters := objSet st.filters k v, page := 1 }

/-- clearFilters: empty the filter map and reset page to 1. -/
def clearFilters (st : State) : State := { st with filters := [], page := 1 }

/-- setPageSize is the bare state setter: no page reset. -/
def setPageSize (st : State) (n : Int) : State := { st with pageSize := n }

/-- setPage is the bare state setter. -/
def setPage (st : State) (n : Int) : State := { st with page := n }

/-- setSort is the bare state setter. -/
def setSort (st : State) (so : Option SortSpec) : State := { st with sort := so }

/-! ### Fetch coordination (refresh in src/hooks/usePaginatedTable.ts)

The event loop is single threaded, so an execution is a sequence of two
step functions on the visible fetch state: issuing a request (increment
the latest counter, capture the new value as the request id, raise the
loading flag, clear the error) and completing a request (apply the
continuation chain of the promise for the captured id against the current
counter). -/

/-- The visible state touched by refresh: the request counter held in the
latest ref, the applied rows and total, the loading flag and the error
cell. -/
structure FetchState (T : Type) where
  latest : Nat
  rows : List T
  total : Int
  loading : Bool
  error : Option String
deriving DecidableEq

/-- How one request settles: a 2xx response with a parsed body, a non-2xx
response (the thrown statusText error), or an abort. -/
inductive Outcome (T : Type) where
  | ok (items : List T) (total : Int)
  | httpError (msg : String)
  | abortError
deriving DecidableEq

/-- Issuing a request: id = ++latest.current, setLoading(true),
setError(null).  Returns the captured id and the new state. -/
def issueRequest (st : FetchState T) : Nat × FetchState T :=
  (st.latest + 1, { st with latest := st.latest + 1, loading := true, error := none })

/-- Completing the request with captured id: the then-handler returns
early when the id is stale, otherwise applies rows and total; the catch
sets the error only when the id matches and the error is not an abort;
the finally clears the loading flag only when the id matches. -/
def completeRequest (st : FetchState T) (id : Nat) (o : Outcome T) : FetchState T :=
  if id = st.latest then
    match o with
    | .ok items tot => { st with rows := items, total := tot, loading := false }
    | .httpError msg => { st with error := some msg, loading := false }
    | .abortError => { st with loading := false }
  else st

/-- The error a matching completion writes for each outcome: only a
non-2xx response carries one. -/
def errOf : Outcome T → Option String
  | .httpError m => some m
  | _ => none

/-! ### Pager button layout (makePageButtons) -/

/-- One entry of the pager row: a page number or the ellipsis marker. -/
inductive PageBtn where
  | num (n : Nat)
  | ell
deriving DecidableEq

/-- The add helper of makePageButtons: push unless it equals the last
entry already pushed. -/
def addBtn (out : List PageBtn) (x : PageBtn) : List PageBtn :=
  if out.getLast? = some x then out else out ++ [x]

/-- The compacted row: page 1, a window of one page around the current
page, the last page, with ellipsis markers guarded by the two gap tests,
all deduplicated against the previous entry by the add helper.  The for
loop from left to right is the fold over that range. -/
def pagerRow (curr total : Nat) : List PageBtn :=
  let left := Nat.max 1 (curr - 1)
  let right := Nat.min total (curr + 1)
  let out := addBtn [] (PageBtn.num 1)
  let out := if 2 < left then addBtn out PageBtn.ell else out
  let out := ((List.range' left (right + 1 - left)).map PageBtn.num).foldl addBtn out
  let out := if right < total - 1 then addBtn out PageBtn.ell else out
  addBtn out (PageBtn.num total)

/-- makePageButtons: with total at most max, every page number from 1 to
total; otherwise the compacted row. -/
def makePageButtons (curr total mx : Nat) : List PageBtn :=
  if total ≤ mx then (List.range' 1 total).map PageBtn.num
  else pagerRow curr total

/-- The numeric entries of a pager row, in order. -/
def btnNums (out : List PageBtn) : List Nat :=
  out.filterMap (fun x => match x with | .num n => some n | .ell => none)

/-- Two physically adjacent entries that are both page numbers must be
consecutive pages: a gap is never skipped without an ellipsis between. -/
def adjOK : PageBtn → PageBtn → Prop
  | .num a, .num b => b = a + 1
  | _, _ => True

/-- The pager row invariant: no two adjacent entries are equal, adjacent
numbers are consecutive, and the numbers are strictly increasing, the
last of them being the given page. -/
def PagerInv (out : List PageBtn) (lastN : Nat) : Prop :=
  List.Chain' (fun a b => a ≠ b) out ∧ List.Chain' adjOK out ∧
    List.Chain' (fun a b => a < b) (btnNums out) ∧ (btnNums out).getLast? = some lastN

/-! ### The mock API endpoint (src/pages/api/customers.ts) -/

/-- One customer row.  The status union and the ISO timestamp are strings
at this level; rows are supplied as a parameter because the generated
ROWS array depends on the clock. -/
structure Row where
  id : String
  name : String
  email : String
  company : String
  status : String
  createdAt : String
deriving DecidableEq

/-- A Next.js query value: a string or an array of strings. -/
inductive QVal where
  | str (s : String)
  | arr (l : List String)
deriving DecidableEq

/-- The qval helper of the handler: first element of an array (with the
fallback when the array is empty), the string itself, or the fallback
when the key was absent. -/
def qval (x : Option QVal) (fb : String) : String :=
  match x with
  | some (.str s) => s
  | some (.arr l) => l.headD fb
  | none => fb

/-- Property read on the req.query object. -/
def qGet (query : List (String × QVal)) (k : String) : Option QVal :=
  (query.find? (fun p => p.1 == k)).map (fun p => p.2)

/-- ASCII lowercasing, as toLowerCase on the ASCII row data. -/
def jsToLower (s : String) : String := ⟨s.data.map Char.toLower⟩

/-- Does the pattern occur at the head of the list? -/
def headMatches : List Char → List Char → Bool
  | [], _ => true
  | _ :: _, [] => false
  | c :: cs, d :: ds => c == d && headMatches cs ds

/-- Substring test over char lists (String.prototype.includes). -/
def hasSub (needle : List Char) : List Char → Bool
  | [] => needle.isEmpty
  | c :: cs => headMatches needle (c :: cs) || hasSub needle cs

/-- a.includes(b) on strings. -/
def strIncludes (hay needle : String) : Bool := hasSub needle.data hay.data

/-- Boolean lexicographic comparison of char lists, mirroring the JS
relational operators on (ASCII) strings. -/
def charListLt : List Char → List Char → Bool
  | [], [] => false
  | [], _ :: _ => true
  | _ :: _, [] => false
  | a :: as, b :: bs => if a < b then true else if b < a then false else charListLt as bs

/-- a < b on strings. -/
def strLt (a b : String) : Bool := charListLt a.data b.data

/-- a <= b on strings (total order, so the negation of the reverse). -/
def strLe (a b : String) : Bool := !(strLt b a)

/-- The search predicate: case-insensitive substring match of the already
lowercased q against name, email or company. -/
def rowMatches (q : String) (r : Row) : Bool :=
  strIncludes (jsToLower r.name) q || strIncludes (jsToLower r.email) q ||
    strIncludes (jsToLower r.company) q

/-- The search stage: filter only when q is truthy. -/
def searchStep (q : String) (data : List Row) : List Row :=
  if q = "" then data else data.filter (rowMatches q)

/-- Read a filter value, with JS truthiness (absent and empty are falsy). -/
def fval (fs : List (String × String)) (k : String) : Option String :=
  match lookupF fs k with
  | some v => if v = "" then none else some v
  | none => none

/-- The filter stage: status and company by equality, createdAtFrom and
createdAtTo as inclusive string-range bounds, each applied only when the
filter value is truthy, in source order. -/
def filterStep (fs : List (String × String)) (data : List Row) : List Row :=
  let d1 := match fval fs "status" with
    | some v => data.filter (fun r => r.status == v)
    | none => data
  let d2 := match fval fs "company" with
    | some v => d1.filter (fun r => r.company == v)
    | none => d1
  let d3 := match fval fs "createdAtFrom" with
    | some v => d2.filter (fun r => strLe v r.createdAt)
    | none => d2
  match fval fs "createdAtTo" with
  | some v => d3.filter (fun r => strLe r.createdAt v)
  | none => d3

/-- Dynamic field read a[field]; an unknown field is undefined. -/
def getField (r : Row) (f : String) : Option String :=
  if f = "id" then some r.id
  else if f = "name" then some r.name
  else if f = "email" then some r.email
  else if f = "company" then some r.company
  else if f = "status" then some r.status
  else if f = "createdAt" then some r.createdAt
  else none

/-- The comparator body (a > b ? 1 : a < b ? -1 : 0) on field values; any
comparison against undefined is false, giving 0. -/
def jsFieldCmp (x y : Option String) : Int :=
  match x, y with
  | some a, some b => if strLt b a then 1 else if strLt a b then -1 else 0
  | _, _ => 0

/-- The sort stage: split the sort value at the colon, negate on desc,
and sort by the comparator (applied only when the sort value is truthy).
Array.prototype.sort is modelled by mergeSort, which produces the same
multiset; the claims depend on the sort only through permutation. -/
def sortStep (sortV : String) (data : List Row) : List Row :=
  if sortV = "" then data
  else
    let field := splitColonHead sortV
    let dir := splitColonSecond sortV
    let sign : Int := if dir = some "desc" then -1 else 1
    data.mergeSort (fun a b => jsFieldCmp (getField a field) (getField b field) * sign ≤ 0)

/-- NaN-propagating Math.max. -/
def jsMaxO (a : Int) (o : Option Int) : Option Int := o.map (fun n => Max.max a n)

/-- NaN-propagating Math.min. -/
def jsMinO (a : Int) (o : Option Int) : Option Int := o.map (fun n => Min.min a n)

/-- Slice index conversion of Array.prototype.slice: NaN becomes 0, a
negative index counts from the end, and indices clamp to the length. -/
def jsSliceIdx (len : Nat) (x : Option Int) : Nat :=
  match x with
  | none => 0
  | some i => if i < 0 then (len - (-i).toNat) else min i.toNat len

/-- Array.prototype.slice over the two converted indices. -/
def jsSlice (l : List α) (s e : Option Int) : List α :=
  (l.take (jsSliceIdx l.length e)).drop (jsSliceIdx l.length s)

/-- The response object: page and pageSize are echoed as computed, where
none is the NaN produced from an unparseable parameter (serialized as
null by JSON). -/
structure ApiResponse where
  items : List Row
  total : Nat
  page : Option Int
  pageSize : Option Int
deriving DecidableEq

/-- The filters record parsed from the flat bracketed query keys. -/
def handlerFilters (query : List (String × QVal)) : List (String × String) :=
  query.foldl
    (fun fs kv =>
      match matchFilterKey kv.1 with
      | some name => objSet fs name (qval (some kv.2) "")
      | none => fs) []

/-- The handler: normalize page and pageSize, lowercase q, parse the
bracketed filters, then search, filter, sort, take the total, and slice
the current page. -/
def handler (rows : List Row) (query : List (String × QVal)) : ApiResponse :=
  let page := jsMaxO 1 (jsParseInt (qval (qGet query "page") "1"))
  let pageSize := jsMinO 100 (jsMaxO 1 (jsParseInt (qval (qGet query "pageSize") "10")))
  let q := jsToLower (qval (qGet query "q") "")
  let sortV := qval (qGet query "sort") ""
  let fs := handlerFilters query
  let data := searchStep q rows
  let data := filterStep fs data
  let data := sortStep sortV data
  let total := data.length
  let start := page.bind (fun p => pageSize.map (fun ps => (p - 1) * ps))
  let stop := start.bind (fun st => pageSize.map (fun ps => st + ps))
  { items := jsSlice data start stop, total := total, page := page, pageSize := pageSize }

/-! ### Association-list lemmas -/

theorem find?_replace_eq (k v : String) :
    ∀ fs : List (String × String), fs.any (fun p => p.1 == k) = true →
      (fs.map (fun p => if p.1 = k then (k, v) else p)).find? (fun p => p.1 == k) = some (k, v) := by
  intro fs hany
  induction fs with
  | nil => simp at hany
  | cons p ps ih =>
    by_cases hk : p.1 = k
    · rw [List.map_cons, if_pos hk, List.find?_cons_of_pos _ (by simp)]
    · simp only [List.any_cons, Bool.or_eq_true, beq_iff_eq, hk, false_or] at hany
      rw [List.map_cons, if_neg hk, List.find?_cons_of_neg _ (by simp [hk])]
      exact ih hany

theorem find?_replace_ne (k v k2 : String) (hne : k2 ≠ k) :
    ∀ fs : List (String × String),
      (fs.map (fun p => if p.1 = k then (k, v) else p)).find? (fun p => p.1 == k2) =
        fs.find? (fun p => p.1 == k2) := by
  intro fs
  induction fs with
  | nil => rfl
  | cons p ps ih =>
    by_cases hk : p.1 = k
    · rw [List.map_cons, if_pos hk, List.find?_cons_of_neg _ (by simp [Ne.symm hne]),
        List.find?_cons_of_neg _ (by simp [hk, Ne.symm hne])]
      exact ih
    · by_cases h2 : p.1 = k2
      · rw [List.map_cons, if_neg hk, List.find?_cons_of_pos _ (by simp [h2]),
          List.find?_cons_of_pos _ (by simp [h2])]
      · rw [List.map_cons, if_neg hk, List.find?_cons_of_neg _ (by simp [h2]),
          List.find?_cons_of_neg _ (by simp [h2])]
        exact ih

/-- Reading back after a JS object assignment: the assigned key maps to
the new value, every other key is untouched. -/
theorem lookupF_objSet (fs : List (String × String)) (k v k2 : String) :
    lookupF (objSet fs k v) k2 = if k2 = k then some v else lookupF fs k2 := by
  by_cases hany : fs.any (fun p => p.1 == k) = true
  · rw [objSet, if_pos hany]
    by_cases h2 : k2 = k
    · rw [if_pos h2, h2, lookupF, find?_replace_eq k v fs hany]
      rfl
    · rw [if_neg h2, lookupF, lookupF, find?_replace_ne k v k2 h2 fs]
  · rw [objSet, if_neg hany]
    have hnone : fs.find? (fun p => p.1 == k) = none := by
      rw [List.find?_eq_none]
      intro x hx hbeq
      exact hany (List.any_eq_true.mpr ⟨x, hx, hbeq⟩)
    by_cases h2 : k2 = k
    · rw [if_pos h2, h2, lookupF, List.find?_append, hnone,
        List.find?_cons_of_pos _ (by simp)]
      rfl
    · rw [if_neg h2, lookupF, lookupF, List.find?_append,
        List.find?_cons_of_neg _ (by simp [Ne.symm h2]), List.find?_nil, Option.or_none]

/-! ### Claim C10: setPageSize frame condition -/

/-- C10: setPageSize changes only the pageSize component; page, query,
sort and filters are unchanged, and in particular page is not reset
to 1. -/
theorem setPageSize_frame (st : State) (n : Int) :
    (setPageSize st n).pageSize = n ∧ (setPageSize st n).page = st.page ∧
      (setPageSize st n).query = st.query ∧ (setPageSize st n).sort = st.sort ∧
      (setPageSize st n).filters = st.filters :=
  ⟨rfl, rfl, rfl, rfl, rfl⟩

/-! ### Claim C3: page-reset invariant -/

/-- C3: from any state with page above 1, setQuery, setFilter and
clearFilters each leave page equal to 1, while the other components
change only as prescribed: setQuery replaces the query text, setFilter
rewrites exactly the one filter entry, clearFilters empties the filter
map; everything else is untouched. -/
theorem page_reset_invariant (st : State) (q k v : String) (hpage : 1 < st.page) :
    ((setQuery st q).page = 1 ∧ (setQuery st q).query = q ∧
        (setQuery st q).pageSize = st.pageSize ∧ (setQuery st q).sort = st.sort ∧
        (setQuery st q).filters = st.filters) ∧
      ((setFilter st k v).page = 1 ∧
        lookupF (setFilter st k v).filters k = some v ∧
        (∀ k2, k2 ≠ k → lookupF (setFilter st k v).filters k2 = lookupF st.filters k2) ∧
        (setFilter st k v).pageSize = st.pageSize ∧ (setFilter st k v).query = st.query ∧
        (setFilter st k v).sort = st.sort) ∧
      ((clearFilters st).page = 1 ∧ (clearFilters st).filters = [] ∧
        (clearFilters st).pageSize = st.pageSize ∧ (clearFilters st).query = st.query ∧
        (clearFilters st).sort = st.sort) := by
  refine ⟨⟨rfl, rfl, rfl, rfl, rfl⟩, ⟨rfl, ?_, ?_, rfl, rfl, rfl⟩, rfl, rfl, rfl, rfl, rfl⟩
  · show lookupF (objSet st.filters k v) k = some v
    rw [lookupF_objSet, if_pos rfl]
  · intro k2 h2
    show lookupF (objSet st.filters k v) k2 = lookupF st.filters k2
    rw [lookupF_objSet, if_neg h2]

/-- Witness for C3 at a concrete state with page 4. -/
theorem page_reset_invariant_witness :
    (setQuery (⟨4, 10, "", none, [("status", "trial")]⟩ : State) "ana").page = 1 :=
  (page_reset_invariant (⟨4, 10, "", none, [("status", "trial")]⟩ : State)
      "ana" "company" "Epsilon" (by decide)).1.1

/-! ### Claim C2: latest-wins guard -/

/-- C2: request A issued, request B issued before A resolves, A resolving
after B: the applied rows and total are those of the response of B, and
the late completion of A is discarded silently, changing nothing; in
general any completion whose captured id differs from the current counter
returns the state unchanged, whatever the outcome. -/
theorem latest_wins (st0 : FetchState T) (rowsA rowsB : List T) (totalA totalB : Int) :
    (completeRequest
          (completeRequest (issueRequest (issueRequest st0).2).2
            (issueRequest (issueRequest st0).2).1 (.ok rowsB totalB))
          (issueRequest st0).1 (.ok rowsA totalA)).rows = rowsB ∧
      (completeRequest
          (completeRequest (issueRequest (issueRequest st0).2).2
            (issueRequest (issueRequest st0).2).1 (.ok rowsB totalB))
          (issueRequest st0).1 (.ok rowsA totalA)) =
        completeRequest (issueRequest (issueRequest st0).2).2
          (issueRequest (issueRequest st0).2).1 (.ok rowsB totalB) ∧
      (completeRequest (issueRequest (issueRequest st0).2).2
          (issueRequest (issueRequest st0).2).1 (.ok rowsB totalB)).rows = rowsB ∧
      (completeRequest (issueRequest (issueRequest st0).2).2
          (issueRequest (issueRequest st0).2).1 (.ok rowsB totalB)).total = totalB ∧
      ∀ (st : FetchState T) (id : Nat) (o : Outcome T),
        id ≠ st.latest → completeRequest st id o = st := by
  have hstale : ∀ (st : FetchState T) (id : Nat) (o : Outcome T),
      id ≠ st.latest → completeRequest st id o = st := by
    intro st id o hne
    unfold completeRequest
    rw [if_neg hne]
  refine ⟨?_, ?_, ?_, ?_, hstale⟩ <;>
    simp [issueRequest, completeRequest]

/-- Witness for C2: the stale-discard conjunct at a concrete state. -/
theorem latest_wins_witness :
    completeRequest (⟨5, [9], 1, false, none⟩ : FetchState Nat) 3 (.httpError "boom") =
      ⟨5, [9], 1, false, none⟩ :=
  (latest_wins (⟨0, [], 0, false, none⟩ : FetchState Nat) [1] [2] 1 2).2.2.2.2
    ⟨5, [9], 1, false, none⟩ 3 (.httpError "boom") (by decide)

/-! ### Claim C8: fetch error discipline -/

/-- C8: issuing a request clears any previous error — the state st here
is arbitrary, in particular one still carrying the error of a failed
earlier request — and raises the loading flag, both before the request
goes out; a completion whose id matches the current counter leaves the
error set exactly when the outcome was a non-2xx response or a non-abort
failure, relative to the error-free state st2 that issuing that request
produced; an abort never writes the error, matching or not. -/
theorem error_discipline (st st2 st3 : FetchState T) (o : Outcome T) (id : Nat)
    (hclean : st2.error = none) :
    ((issueRequest st).2.error = none ∧ (issueRequest st).2.loading = true) ∧
      (completeRequest st2 st2.latest o).error = errOf o ∧
      (completeRequest st3 id .abortError).error = st3.error := by
  refine ⟨⟨rfl, rfl⟩, ?_, ?_⟩
  · unfold completeRequest
    rw [if_pos rfl]
    cases o with
    | ok items tot => simpa [errOf] using hclean
    | httpError m => rfl
    | abortError => simpa [errOf] using hclean
  · unfold completeRequest
    by_cases h : id = st3.latest
    · rw [if_pos h]
    · rw [if_neg h]

/-- Witness for C8: issuing over a state that still carries a previous
error clears it, and a matching non-2xx completion of an error-free
in-flight state sets the error to the response message. -/
theorem error_discipline_witness :
    (issueRequest (⟨1, [7], 0, false, some "old"⟩ : FetchState Nat)).2.error = none ∧
      (completeRequest (⟨2, [], 0, true, none⟩ : FetchState Nat) 2 (.httpError "500")).error =
        some "500" :=
  ⟨(error_discipline (⟨1, [7], 0, false, some "old"⟩ : FetchState Nat)
      (⟨2, [], 0, true, none⟩ : FetchState Nat) ⟨0, [], 0, false, some "x"⟩
      (.httpError "500") 9 rfl).1.1,
    (error_discipline (⟨1, [7], 0, false, some "old"⟩ : FetchState Nat)
      (⟨2, [], 0, true, none⟩ : FetchState Nat) ⟨0, [], 0, false, some "x"⟩
      (.httpError "500") 9 rfl).2.1⟩

/-! ### Pager lemmas (claim C5) -/

theorem addBtn_ne_nil (out : List PageBtn) (x : PageBtn) : addBtn out x ≠ [] := by
  unfold addBtn
  split
  · next h =>
    intro hc
    rw [hc] at h
    simp at h
  · simp

theorem addBtn_last_self (out : List PageBtn) (x : PageBtn) (hl : out.getLast? = some x) :
    addBtn out x = out := by
  unfold addBtn
  rw [if_pos hl]

theorem getLast?_addBtn (out : List PageBtn) (x : PageBtn) :
    (addBtn out x).getLast? = some x := by
  unfold addBtn
  split
  · assumption
  · rw [List.getLast?_concat]

theorem head?_addBtn (out : List PageBtn) (x : PageBtn) (h : out ≠ []) :
    (addBtn out x).head? = out.head? := by
  cases out with
  | nil => exact absurd rfl h
  | cons a t =>
    unfold addBtn
    split
    · rfl
    · rfl

theorem mem_addBtn_self (out : List PageBtn) (x : PageBtn) : x ∈ addBtn out x := by
  unfold addBtn
  split
  · next h => exact List.mem_of_getLast?_eq_some h
  · simp

theorem mem_addBtn (out : List PageBtn) (x y : PageBtn) (h : y ∈ out) : y ∈ addBtn out x := by
  unfold addBtn
  split
  · exact h
  · exact List.mem_append_left _ h

theorem btnNums_append (out l : List PageBtn) : btnNums (out ++ l) = btnNums out ++ btnNums l :=
  List.filterMap_append out l _

/-- Appending the next consecutive number keeps the invariant. -/
theorem pagerInv_addBtn_succ (out : List PageBtn) (m : Nat)
    (h : PagerInv out m) (hl : out.getLast? = some (.num m)) :
    PagerInv (addBtn out (.num (m + 1))) (m + 1) ∧
      (addBtn out (.num (m + 1))).getLast? = some (.num (m + 1)) := by
  refine ⟨?_, getLast?_addBtn _ _⟩
  have hne : out.getLast? ≠ some (PageBtn.num (m + 1)) := by
    rw [hl]
    intro hc
    have h2 : PageBtn.num m = PageBtn.num (m + 1) := Option.some_inj.mp hc
    have h3 : m = m + 1 := by injection h2
    omega
  rw [addBtn, if_neg hne]
  obtain ⟨hc1, hc2, hc3, hc4⟩ := h
  refine ⟨?_, ?_, ?_, ?_⟩
  · rw [List.chain'_append]
    refine ⟨hc1, List.chain'_singleton _, ?_⟩
    intro a ha b hb
    rw [Option.mem_def, hl, Option.some_inj] at ha
    simp only [List.head?_cons, Option.mem_def, Option.some_inj] at hb
    rw [← ha, ← hb]
    intro hab
    have h3 : m = m + 1 := by injection hab
    omega
  · rw [List.chain'_append]
    refine ⟨hc2, List.chain'_singleton _, ?_⟩
    intro a ha b hb
    rw [Option.mem_def, hl, Option.some_inj] at ha
    simp only [List.head?_cons, Option.mem_def, Option.some_inj] at hb
    rw [← ha, ← hb]
    rfl
  · rw [btnNums_append]
    rw [List.chain'_append]
    refine ⟨hc3, ?_, ?_⟩
    · exact List.chain'_singleton _
    · intro a ha b hb
      rw [Option.mem_def, hc4, Option.some_inj] at ha
      have hb2 : m + 1 = b := by
        simpa [btnNums] using hb
      omega
  · rw [btnNums_append]
    have : btnNums [PageBtn.num (m + 1)] = [m + 1] := rfl
    rw [this, List.getLast?_concat]

/-- Appending the ellipsis after a number keeps the invariant and leaves
the number list unchanged. -/
theorem pagerInv_addBtn_ell (out : List PageBtn) (m : Nat)
    (h : PagerInv out m) (hl : out.getLast? = some (.num m)) :
    PagerInv (addBtn out .ell) m ∧ (addBtn out .ell).getLast? = some PageBtn.ell := by
  refine ⟨?_, getLast?_addBtn _ _⟩
  have hne : out.getLast? ≠ some PageBtn.ell := by
    rw [hl]
    intro hc
    simp at hc
  rw [addBtn, if_neg hne]
  obtain ⟨hc1, hc2, hc3, hc4⟩ := h
  refine ⟨?_, ?_, ?_, ?_⟩
  · rw [List.chain'_append]
    refine ⟨hc1, List.chain'_singleton _, ?_⟩
    intro a ha b hb
    simp only [List.head?_cons, Option.mem_def, Option.some_inj] at hb
    rw [Option.mem_def, hl, Option.some_inj] at ha
    rw [← ha, ← hb]
    simp
  · rw [List.chain'_append]
    refine ⟨hc2, List.chain'_singleton _, ?_⟩
    intro a ha b hb
    simp only [List.head?_cons, Option.mem_def, Option.some_inj] at hb
    rw [← hb]
    rw [Option.mem_def, hl, Option.some_inj] at ha
    rw [← ha]
    show True
    trivial
  · rw [btnNums_append]
    have : btnNums [PageBtn.ell] = [] := rfl
    rw [this, List.append_nil]
    exact hc3
  · rw [btnNums_append]
    have : btnNums [PageBtn.ell] = [] := rfl
    rw [this, List.append_nil]
    exact hc4

/-- Appending a strictly larger number after the ellipsis keeps the
invariant. -/
theorem pagerInv_addBtn_after_ell (out : List PageBtn) (m n : Nat)
    (h : PagerInv out m) (hl : out.getLast? = some PageBtn.ell) (hmn : m < n) :
    PagerInv (addBtn out (.num n)) n ∧ (addBtn out (.num n)).getLast? = some (.num n) := by
  refine ⟨?_, getLast?_addBtn _ _⟩
  have hne : out.getLast? ≠ some (PageBtn.num n) := by
    rw [hl]
    intro hc
    simp at hc
  rw [addBtn, if_neg hne]
  obtain ⟨hc1, hc2, hc3, hc4⟩ := h
  refine ⟨?_, ?_, ?_, ?_⟩
  · rw [List.chain'_append]
    refine ⟨hc1, List.chain'_singleton _, ?_⟩
    intro a ha b hb
    simp only [List.head?_cons, Option.mem_def, Option.some_inj] at hb
    rw [Option.mem_def, hl, Option.some_inj] at ha
    rw [← ha, ← hb]
    simp
  · rw [List.chain'_append]
    refine ⟨hc2, List.chain'_singleton _, ?_⟩
    intro a ha b hb
    rw [Option.mem_def, hl, Option.some_inj] at ha
    rw [← ha]
    show adjOK PageBtn.ell b
    cases b <;> trivial
  · rw [btnNums_append]
    have heq : btnNums [PageBtn.num n] = [n] := rfl
    rw [heq, List.chain'_append]
    refine ⟨hc3, List.chain'_singleton _, ?_⟩
    intro a ha b hb
    rw [Option.mem_def, hc4, Option.some_inj] at ha
    simp only [List.head?_cons, Option.mem_def, Option.some_inj] at hb
    omega
  · rw [btnNums_append]
    have heq : btnNums [PageBtn.num n] = [n] := rfl
    rw [heq, List.getLast?_concat]

/-- Folding in the page window starting right after the current last
number keeps the invariant and moves the last number to the window
end. -/
theorem pagerInv_foldl_range (len : Nat) :
    ∀ (out : List PageBtn) (m : Nat), PagerInv out m → out.getLast? = some (.num m) →
      PagerInv (((List.range' (m + 1) len).map PageBtn.num).foldl addBtn out) (m + len) ∧
        (((List.range' (m + 1) len).map PageBtn.num).foldl addBtn out).getLast? =
          some (.num (m + len)) := by
  induction len with
  | zero =>
    intro out m h hl
    simpa using ⟨h, hl⟩
  | succ n ih =>
    intro out m h hl
    rw [List.range'_succ, List.map_cons, List.foldl_cons]
    have step := pagerInv_addBtn_succ out m h hl
    have hres := ih (addBtn out (.num (m + 1))) (m + 1) step.1 step.2
    have harith : m + 1 + n = m + (n + 1) := by omega
    rw [harith] at hres
    exact hres

/-- Loop start when the window begins at the number that is already last:
the first iteration is deduplicated away. -/
theorem pagerInv_foldl_self (len : Nat) (out : List PageBtn) (m : Nat)
    (h : PagerInv out m) (hl : out.getLast? = some (.num m)) :
    PagerInv (((List.range' m (len + 1)).map PageBtn.num).foldl addBtn out) (m + len) ∧
      (((List.range' m (len + 1)).map PageBtn.num).foldl addBtn out).getLast? =
        some (.num (m + len)) := by
  rw [List.range'_succ, List.map_cons, List.foldl_cons, addBtn_last_self out _ hl]
  exact pagerInv_foldl_range len out m h hl

/-- Loop start from an ellipsis at a strictly larger window start. -/
theorem pagerInv_foldl_ell (len : Nat) (out : List PageBtn) (m s : Nat)
    (h : PagerInv out m) (hl : out.getLast? = some PageBtn.ell) (hs : m < s) :
    PagerInv (((List.range' s (len + 1)).map PageBtn.num).foldl addBtn out) (s + len) ∧
      (((List.range' s (len + 1)).map PageBtn.num).foldl addBtn out).getLast? =
        some (.num (s + len)) := by
  rw [List.range'_succ, List.map_cons, List.foldl_cons]
  have step := pagerInv_addBtn_after_ell out m s h hl hs
  exact pagerInv_foldl_range len _ s step.1 step.2

theorem foldl_addBtn_ne_nil_head? (l : List PageBtn) :
    ∀ out : List PageBtn, out ≠ [] →
      l.foldl addBtn out ≠ [] ∧ (l.foldl addBtn out).head? = out.head? := by
  induction l with
  | nil => intro out h; exact ⟨h, rfl⟩
  | cons x xs ih =>
    intro out h
    rw [List.foldl_cons]
    have hne := addBtn_ne_nil out x
    have := ih (addBtn out x) hne
    exact ⟨this.1, this.2.trans (head?_addBtn out x h)⟩

theorem mem_foldl_addBtn (l : List PageBtn) :
    ∀ (out : List PageBtn) (y : PageBtn), y ∈ out → y ∈ l.foldl addBtn out := by
  induction l with
  | nil => intro out y h; exact h
  | cons x xs ih =>
    intro out y h
    rw [List.foldl_cons]
    exact ih _ y (mem_addBtn out x y h)

theorem mem_foldl_addBtn_self (l : List PageBtn) :
    ∀ (out : List PageBtn) (y : PageBtn), y ∈ l → y ∈ l.foldl addBtn out := by
  induction l with
  | nil => intro out y h; simp at h
  | cons x xs ih =>
    intro out y h
    rw [List.foldl_cons]
    rcases List.mem_cons.mp h with heq | hmem
    · rw [heq]
      exact mem_foldl_addBtn xs _ x (mem_addBtn_self out x)
    · exact ih _ y hmem

theorem pagerInv_one : PagerInv [PageBtn.num 1] 1 := by
  refine ⟨List.chain'_singleton _, List.chain'_singleton _, ?_, ?_⟩
  · exact List.chain'_singleton _
  · rfl

/-- The invariant after the optional leading ellipsis and the window
fold, for any window with 1 at most left at most right. -/
theorem pagerInv_window (L R : Nat) (hL1 : 1 ≤ L) (hLR : L ≤ R) :
    PagerInv (((List.range' L (R + 1 - L)).map PageBtn.num).foldl addBtn
        (if 2 < L then addBtn (addBtn [] (PageBtn.num 1)) PageBtn.ell
          else addBtn [] (PageBtn.num 1))) R ∧
      (((List.range' L (R + 1 - L)).map PageBtn.num).foldl addBtn
        (if 2 < L then addBtn (addBtn [] (PageBtn.num 1)) PageBtn.ell
          else addBtn [] (PageBtn.num 1))).getLast? = some (PageBtn.num R) := by
  have hone : addBtn [] (PageBtn.num 1) = [PageBtn.num 1] := rfl
  have hl1 : ([PageBtn.num 1] : List PageBtn).getLast? = some (PageBtn.num 1) := rfl
  by_cases hc : 2 < L
  · rw [if_pos hc, hone]
    have hell := pagerInv_addBtn_ell [PageBtn.num 1] 1 pagerInv_one hl1
    have hlen : R + 1 - L = (R - L) + 1 := by omega
    rw [hlen]
    have hres := pagerInv_foldl_ell (R - L) _ 1 L hell.1 hell.2 (by omega)
    have harith : L + (R - L) = R := by omega
    rw [harith] at hres
    exact hres
  · rw [if_neg hc, hone]
    rcases Nat.lt_or_ge L 2 with hL | hL
    · have hLeq : L = 1 := by omega
      subst hLeq
      have hlen : R + 1 - 1 = (R - 1) + 1 := by omega
      rw [hlen]
      have hres := pagerInv_foldl_self (R - 1) [PageBtn.num 1] 1 pagerInv_one hl1
      have harith : 1 + (R - 1) = R := by omega
      rw [harith] at hres
      exact hres
    · have hLeq : L = 2 := by omega
      subst hLeq
      have hlen : R + 1 - 2 = R - 1 := by omega
      rw [hlen]
      have hres := pagerInv_foldl_range (R - 1) [PageBtn.num 1] 1 pagerInv_one hl1
      have harith : 1 + (R - 1) = R := by omega
      rw [harith] at hres
      exact hres

/-- The invariant through the trailing ellipsis test and the final page
number. -/
theorem pagerInv_finish (out : List PageBtn) (R total : Nat)
    (h : PagerInv out R) (hl : out.getLast? = some (.num R)) (hRt : R ≤ total) :
    PagerInv (addBtn (if R < total - 1 then addBtn out PageBtn.ell else out)
        (PageBtn.num total)) total ∧
      (addBtn (if R < total - 1 then addBtn out PageBtn.ell else out)
        (PageBtn.num total)).getLast? = some (PageBtn.num total) := by
  by_cases hc : R < total - 1
  · rw [if_pos hc]
    have hell := pagerInv_addBtn_ell out R h hl
    exact pagerInv_addBtn_after_ell _ R total hell.1 hell.2 (by omega)
  · rw [if_neg hc]
    rcases Nat.eq_or_lt_of_le hRt with heq | hlt
    · rw [← heq, addBtn_last_self out _ hl]
      exact ⟨h, hl⟩
    · have htot : total = R + 1 := by omega
      rw [htot]
      exact pagerInv_addBtn_succ out R h hl

/-- The full property set of the compacted pager row. -/
theorem pagerRow_props (curr total : Nat) (h1 : 1 ≤ curr) (h2 : curr ≤ total) :
    PagerInv (pagerRow curr total) total ∧
      (pagerRow curr total).head? = some (PageBtn.num 1) ∧
      (pagerRow curr total).getLast? = some (PageBtn.num total) ∧
      ∀ k, Nat.max 1 (curr - 1) ≤ k → k ≤ Nat.min total (curr + 1) →
        PageBtn.num k ∈ pagerRow curr total := by
  have hL1 : 1 ≤ Nat.max 1 (curr - 1) := Nat.le_max_left _ _
  have hLR : Nat.max 1 (curr - 1) ≤ Nat.min total (curr + 1) := by
    rw [Nat.max_le]
    constructor
    · rw [Nat.le_min]
      omega
    · rw [Nat.le_min]
      omega
  have hRt : Nat.min total (curr + 1) ≤ total := Nat.min_le_left _ _
  have hwin := pagerInv_window (Nat.max 1 (curr - 1)) (Nat.min total (curr + 1)) hL1 hLR
  have hfin := pagerInv_finish _ _ total hwin.1 hwin.2 hRt
  have hrow : pagerRow curr total =
      addBtn (if Nat.min total (curr + 1) < total - 1 then
          addBtn (((List.range' (Nat.max 1 (curr - 1))
              (Nat.min total (curr + 1) + 1 - Nat.max 1 (curr - 1))).map PageBtn.num).foldl addBtn
            (if 2 < Nat.max 1 (curr - 1) then addBtn (addBtn [] (PageBtn.num 1)) PageBtn.ell
              else addBtn [] (PageBtn.num 1))) PageBtn.ell
        else ((List.range' (Nat.max 1 (curr - 1))
              (Nat.min total (curr + 1) + 1 - Nat.max 1 (curr - 1))).map PageBtn.num).foldl addBtn
            (if 2 < Nat.max 1 (curr - 1) then addBtn (addBtn [] (PageBtn.num 1)) PageBtn.ell
              else addBtn [] (PageBtn.num 1))) (PageBtn.num total) := rfl
  refine ⟨?_, ?_, ?_, ?_⟩
  · rw [hrow]
    exact hfin.1
  · -- the head survives every step
    have hbase : (if 2 < Nat.max 1 (curr - 1)
        then addBtn (addBtn [] (PageBtn.num 1)) PageBtn.ell
        else addBtn [] (PageBtn.num 1)).head? = some (PageBtn.num 1) ∧
        (if 2 < Nat.max 1 (curr - 1)
        then addBtn (addBtn [] (PageBtn.num 1)) PageBtn.ell
        else addBtn [] (PageBtn.num 1)) ≠ [] := by
      by_cases hc : 2 < Nat.max 1 (curr - 1)
      · rw [if_pos hc]
        exact ⟨head?_addBtn [PageBtn.num 1] PageBtn.ell (by simp), addBtn_ne_nil _ _⟩
      · rw [if_neg hc]
        exact ⟨rfl, by simp [addBtn]⟩
    have hloop := foldl_addBtn_ne_nil_head?
      ((List.range' (Nat.max 1 (curr - 1))
        (Nat.min total (curr + 1) + 1 - Nat.max 1 (curr - 1))).map PageBtn.num) _ hbase.2
    rw [hrow]
    by_cases hc2 : Nat.min total (curr + 1) < total - 1
    · rw [if_pos hc2]
      rw [head?_addBtn _ _ (addBtn_ne_nil _ _), head?_addBtn _ _ hloop.1, hloop.2, hbase.1]
    · rw [if_neg hc2]
      rw [head?_addBtn _ _ hloop.1, hloop.2, hbase.1]
  · rw [hrow]
    exact hfin.2
  · intro k hk1 hk2
    have hmem : PageBtn.num k ∈ ((List.range' (Nat.max 1 (curr - 1))
        (Nat.min total (curr + 1) + 1 - Nat.max 1 (curr - 1))).map PageBtn.num) := by
      apply List.mem_map_of_mem
      rw [List.mem_range'_1]
      omega
    have h3 := mem_foldl_addBtn_self _
      (if 2 < Nat.max 1 (curr - 1) then addBtn (addBtn [] (PageBtn.num 1)) PageBtn.ell
        else addBtn [] (PageBtn.num 1)) _ hmem
    rw [hrow]
    by_cases hc2 : Nat.min total (curr + 1) < total - 1
    · rw [if_pos hc2]
      exact mem_addBtn _ _ _ (mem_addBtn _ _ _ h3)
    · rw [if_neg hc2]
      exact mem_addBtn _ _ _ h3

/-! ### Claim C5: the pager contract -/

/-- C5: for current in 1..total, if total is at most max the pager is
exactly the pages 1..total with no ellipsis; otherwise the row starts
with page 1, ends with page total, contains the window of one page on
each side of the current page (clamped to the page range, so the current
page itself too), never repeats an entry in adjacent positions (in
particular never two adjacent ellipses), keeps physically adjacent page
numbers consecutive — so every skipped gap is bridged by exactly one
ellipsis — and lists the page numbers in strictly increasing order. -/
theorem pager_contract (curr total mx : Nat) (h1 : 1 ≤ curr) (h2 : curr ≤ total) :
    (total ≤ mx → makePageButtons curr total mx = (List.range' 1 total).map PageBtn.num) ∧
      (mx < total →
        (makePageButtons curr total mx).head? = some (PageBtn.num 1) ∧
          (makePageButtons curr total mx).getLast? = some (PageBtn.num total) ∧
          (∀ k, Nat.max 1 (curr - 1) ≤ k → k ≤ Nat.min total (curr + 1) →
            PageBtn.num k ∈ makePageButtons curr total mx) ∧
          List.Chain' (fun a b => a ≠ b) (makePageButtons curr total mx) ∧
          List.Chain' adjOK (makePageButtons curr total mx) ∧
          List.Chain' (fun a b => a < b) (btnNums (makePageButtons curr total mx))) := by
  constructor
  · intro hle
    rw [makePageButtons, if_pos hle]
  · intro hlt
    rw [makePageButtons, if_neg (by omega)]
    have hp := pagerRow_props curr total h1 h2
    exact ⟨hp.2.1, hp.2.2.1, hp.2.2.2, hp.1.1, hp.1.2.1, hp.1.2.2.1⟩

/-- Witness for C5 at current page 5 of 10 with max 7. -/
theorem pager_contract_witness :
    (makePageButtons 5 10 7).head? = some (PageBtn.num 1) :=
  ((pager_contract 5 10 7 (by decide) (by decide)).2 (by decide)).1

/-! ### Claim C6: concrete pager examples -/

/-- C6: the three concrete pager examples of the spec. -/
theorem pager_examples :
    makePageButtons 1 3 7 = [PageBtn.num 1, PageBtn.num 2, PageBtn.num 3] ∧
      makePageButtons 5 10 7 = [PageBtn.num 1, PageBtn.ell, PageBtn.num 4, PageBtn.num 5,
        PageBtn.num 6, PageBtn.ell, PageBtn.num 10] ∧
      makePageButtons 1 1 7 = [PageBtn.num 1] := by
  decide

/-! ### Decimal print and parse lemmas (for claim C1) -/

theorem digitVal_digitChar (d : Nat) (h : d < 10) : digitVal (digitChar d) = d := by
  interval_cases d <;> rfl

theorem isDigitChar_digitChar (d : Nat) : isDigitChar (digitChar d) = true := by
  unfold digitChar
  split <;> rfl

theorem natDigitsRev_spec (fuel : Nat) :
    ∀ n : Nat, n ≤ fuel →
      digitsVal (natDigitsRev fuel n).reverse = n ∧
        (∀ c ∈ natDigitsRev fuel n, isDigitChar c = true) ∧
        (1 ≤ n → natDigitsRev fuel n ≠ []) := by
  induction fuel with
  | zero =>
    intro n hn
    have hn0 : n = 0 := by omega
    subst hn0
    refine ⟨rfl, ?_, ?_⟩
    · intro c hc
      simp [natDigitsRev] at hc
    · omega
  | succ f ih =>
    intro n hn
    match n with
    | 0 =>
      refine ⟨rfl, ?_, ?_⟩
      · intro c hc
        simp [natDigitsRev] at hc
      · omega
    | m + 1 =>
      have hdiv : (m + 1) / 10 ≤ f := by omega
      obtain ⟨ih1, ih2, ih3⟩ := ih ((m + 1) / 10) hdiv
      refine ⟨?_, ?_, ?_⟩
      · show digitsVal (digitChar ((m + 1) % 10) :: natDigitsRev f ((m + 1) / 10)).reverse = m + 1
        rw [List.reverse_cons]
        show List.foldl (fun a c => a * 10 + digitVal c) 0
          ((natDigitsRev f ((m + 1) / 10)).reverse ++ [digitChar ((m + 1) % 10)]) = m + 1
        rw [List.foldl_append]
        show digitsVal (natDigitsRev f ((m + 1) / 10)).reverse * 10
            + digitVal (digitChar ((m + 1) % 10)) = m + 1
        rw [ih1, digitVal_digitChar _ (Nat.mod_lt _ (by omega))]
        omega
      · intro c hc
        rw [show natDigitsRev (f + 1) (m + 1)
            = digitChar ((m + 1) % 10) :: natDigitsRev f ((m + 1) / 10) from rfl] at hc
        rcases List.mem_cons.mp hc with h1 | h1
        · rw [h1]
          exact isDigitChar_digitChar _
        · exact ih2 c h1
      · intro _
        show digitChar ((m + 1) % 10) :: natDigitsRev f ((m + 1) / 10) ≠ []
        simp

theorem dropWhile_cons_false (p : Char → Bool) (c : Char) (t : List Char) (h : p c = false) :
    (c :: t).dropWhile p = c :: t := by
  rw [List.dropWhile_cons, if_neg (by simp [h])]

theorem takeWhile_all_true (p : Char → Bool) :
    ∀ l : List Char, (∀ c ∈ l, p c = true) → l.takeWhile p = l := by
  intro l h
  induction l with
  | nil => rfl
  | cons c t ih =>
    rw [List.takeWhile_cons, if_pos (h c (List.mem_cons_self c t))]
    rw [ih (fun x hx => h x (List.mem_cons_of_mem c hx))]

theorem jsWs_of_digit (c : Char) (h : isDigitChar c = true) : jsWs c = false := by
  unfold isDigitChar at h
  simp only [Bool.and_eq_true, decide_eq_true_eq] at h
  have h1 : c ≠ ' ' := by intro hc; rw [hc] at h; exact absurd h (by decide)
  have h2 : c ≠ '\t' := by intro hc; rw [hc] at h; exact absurd h (by decide)
  have h3 : c ≠ '\n' := by intro hc; rw [hc] at h; exact absurd h (by decide)
  have h4 : c ≠ '\r' := by intro hc; rw [hc] at h; exact absurd h (by decide)
  unfold jsWs
  simp [h1, h2, h3, h4]

theorem sign_of_digit (c : Char) (h : isDigitChar c = true) : c ≠ '-' ∧ c ≠ '+' := by
  unfold isDigitChar at h
  simp only [Bool.and_eq_true, decide_eq_true_eq] at h
  constructor
  · intro hc; rw [hc] at h; exact absurd h (by decide)
  · intro hc; rw [hc] at h; exact absurd h (by decide)

theorem jsParseInt_digits (c : Char) (t : List Char)
    (hd : ∀ x ∈ c :: t, isDigitChar x = true) :
    jsParseInt ⟨c :: t⟩ = some ((digitsVal (c :: t) : Nat) : Int) := by
  have hc := hd c (List.mem_cons_self c t)
  have hsign := sign_of_digit c hc
  show jsParseIntCore ((c :: t).dropWhile jsWs) = _
  rw [dropWhile_cons_false jsWs c t (jsWs_of_digit c hc)]
  have hps : parseSign (c :: t) = (1, c :: t) := by
    show (if c = '-' then ((-1 : Int), t) else if c = '+' then ((1 : Int), t) else (1, c :: t))
      = (1, c :: t)
    rw [if_neg hsign.1, if_neg hsign.2]
  unfold jsParseIntCore
  rw [hps]
  show (if (c :: t).takeWhile isDigitChar = [] then none
    else some ((1 : Int) * (digitsVal ((c :: t).takeWhile isDigitChar) : Int))) = _
  rw [takeWhile_all_true _ _ hd, if_neg (by simp), one_mul]

theorem jsParseInt_natToString (n : Nat) : jsParseInt (natToString n) = some (n : Int) := by
  match n with
  | 0 => rfl
  | m + 1 =>
    obtain ⟨h1, h2, h3⟩ := natDigitsRev_spec (m + 1) (m + 1) Nat.le.refl
    have hnn : (natDigitsRev (m + 1) (m + 1)).reverse ≠ [] := by
      intro hcon
      rw [List.reverse_eq_nil_iff] at hcon
      exact h3 (by omega) hcon
    obtain ⟨c, t, hct⟩ : ∃ c t, (natDigitsRev (m + 1) (m + 1)).reverse = c :: t := by
      cases hrev : (natDigitsRev (m + 1) (m + 1)).reverse with
      | nil => exact absurd hrev hnn
      | cons c t => exact ⟨c, t, rfl⟩
    have hts : natToString (m + 1) = ⟨c :: t⟩ := by
      rw [natToString, if_neg (by omega), hct]
    rw [hts, jsParseInt_digits c t (fun x hx => h2 x (List.mem_reverse.mp (hct.symm ▸ hx)))]
    rw [← hct, h1]

theorem jsParseInt_intToString (i : Int) (h : 0 ≤ i) : jsParseInt (intToString i) = some i := by
  rw [intToString, if_neg (by omega), jsParseInt_natToString]
  congr 1
  omega

/-! ### Filter-key and colon-split lemmas (for claims C1 and C9) -/

theorem filterKey_data (k : String) :
    ("filters[" ++ k ++ "]").data = ("filters[").data ++ (k.data ++ [']']) := by
  rw [String.data_append, String.data_append, List.append_assoc]

theorem filterKey_inj (a b : String) (h : "filters[" ++ a ++ "]" = "filters[" ++ b ++ "]") :
    a = b := by
  have hd := congrArg String.data h
  rw [filterKey_data, filterKey_data] at hd
  have h2 := List.append_cancel_left hd
  have h3 : a.data = b.data := by
    have h4 := congrArg List.dropLast h2
    rwa [List.dropLast_concat, List.dropLast_concat] at h4
  exact String.ext h3

theorem filterKey_head (k : String) : ("filters[" ++ k ++ "]").data.head? = some 'f' := by
  rw [filterKey_data]
  rfl

theorem filterKey_ne_of_head (k fixed : String) (hf : fixed.data.head? ≠ some 'f') :
    "filters[" ++ k ++ "]" ≠ fixed := by
  intro h
  apply hf
  rw [← h, filterKey_head]

theorem matchFilterKey_encode (k : String) :
    matchFilterKey ("filters[" ++ k ++ "]") = if k.data = [] then none else some k := by
  by_cases hk : k.data = []
  · rw [if_pos hk]
    unfold matchFilterKey
    rw [if_neg]
    intro hcon
    have hlen : ("filters[" ++ k ++ "]").data.length = 9 := by
      rw [filterKey_data, List.length_append, List.length_append, hk]
      rfl
    have h10 := hcon.2.2
    rw [hlen] at h10
    omega
  · rw [if_neg hk]
    unfold matchFilterKey
    rw [if_pos ?side]
    case side =>
      refine ⟨?_, ?_, ?_⟩
      · rw [filterKey_data, show (8 : Nat) = ("filters[").data.length from rfl, List.take_left]
      · rw [filterKey_data, ← List.append_assoc, List.getLast?_concat]
      · rw [filterKey_data, List.length_append, List.length_append]
        have hlen : k.data.length ≠ 0 := fun hc => hk (List.length_eq_zero.mp hc)
        show 10 ≤ 8 + (k.data.length + 1)
        omega
    congr 1
    apply String.ext
    show (("filters[" ++ k ++ "]").data.drop 8).dropLast = k.data
    rw [filterKey_data, show (8 : Nat) = ("filters[").data.length from rfl, List.drop_left,
      List.dropLast_concat]

theorem takeWhile_until (p : Char → Bool) (x : Char) (l2 : List Char) (hx : p x = false) :
    ∀ l1 : List Char, (∀ c ∈ l1, p c = true) → (l1 ++ x :: l2).takeWhile p = l1 := by
  intro l1
  induction l1 with
  | nil => intro _; rw [List.nil_append, List.takeWhile_cons, if_neg (by simp [hx])]
  | cons c t ih =>
    intro h
    rw [List.cons_append, List.takeWhile_cons, if_pos (h c (List.mem_cons_self c t)),
      ih (fun y hy => h y (List.mem_cons_of_mem c hy))]

theorem dropWhile_until (p : Char → Bool) (x : Char) (l2 : List Char) (hx : p x = false) :
    ∀ l1 : List Char, (∀ c ∈ l1, p c = true) → (l1 ++ x :: l2).dropWhile p = x :: l2 := by
  intro l1
  induction l1 with
  | nil => intro _; rw [List.nil_append, List.dropWhile_cons, if_neg (by simp [hx])]
  | cons c t ih =>
    intro h
    rw [List.cons_append, List.dropWhile_cons, if_pos (h c (List.mem_cons_self c t)),
      ih (fun y hy => h y (List.mem_cons_of_mem c hy))]

theorem sortValue_data (k d : String) : (k ++ ":" ++ d).data = k.data ++ ':' :: d.data := by
  rw [String.data_append, String.data_append, List.append_assoc]
  rfl

theorem sortValue_ne_empty (k d : String) : k ++ ":" ++ d ≠ "" := by
  intro h
  have hd := congrArg String.data h
  rw [sortValue_data] at hd
  simp at hd

theorem splitColonHead_encode (k d : String) (hk : ∀ c ∈ k.data, c ≠ ':') :
    splitColonHead (k ++ ":" ++ d) = k := by
  unfold splitColonHead
  rw [sortValue_data,
    takeWhile_until _ ':' d.data (by simp) k.data (fun c hc => by simp [hk c hc])]

theorem splitColonSecond_encode (k d : String) (hk : ∀ c ∈ k.data, c ≠ ':')
    (hd : ∀ c ∈ d.data, c ≠ ':') :
    splitColonSecond (k ++ ":" ++ d) = some d := by
  unfold splitColonSecond
  rw [sortValue_data,
    dropWhile_until _ ':' d.data (by simp) k.data (fun c hc => by simp [hk c hc])]
  show some (⟨d.data.takeWhile (fun c => c != ':')⟩ : String) = some d
  rw [takeWhile_all_true _ _ (fun c hc => by simp [hd c hc])]

/-! ### URLSearchParams lemmas (for claim C1) -/

theorem urlSet_append (k v : String) :
    ∀ ps : List (String × String), (∀ p ∈ ps, p.1 ≠ k) → urlSet ps k v = ps ++ [(k, v)] := by
  intro ps
  induction ps with
  | nil => intro _; rfl
  | cons p ps ih =>
    intro h
    show (if p.1 = k then (k, v) :: ps.filter (fun r => r.1 != k) else p :: urlSet ps k v)
      = (p :: ps) ++ [(k, v)]
    rw [if_neg (h p (List.mem_cons_self p ps)),
      ih (fun q hq => h q (List.mem_cons_of_mem p hq))]
    rfl

theorem getParam_cons_ne (k1 v1 : String) (ps : List (String × String)) (k : String)
    (h : k1 ≠ k) : getParam ((k1, v1) :: ps) k = getParam ps k := by
  unfold getParam
  rw [List.find?_cons_of_neg _ (by simp [h])]

theorem getParam_cons_eq (k v : String) (ps : List (String × String)) :
    getParam ((k, v) :: ps) k = some v := by
  unfold getParam
  rw [List.find?_cons_of_pos _ (by simp)]
  rfl

theorem getParam_none (k : String) :
    ∀ ps : List (String × String), (∀ p ∈ ps, p.1 ≠ k) → getParam ps k = none := by
  intro ps h
  unfold getParam
  rw [List.find?_eq_none.mpr (fun x hx => by simp [h x hx])]
  rfl

/-! ### Unique-key association lemmas (for claims C1 and C9) -/

theorem nodup_key_eq :
    ∀ fs : List (String × String), (fs.map Prod.fst).Nodup →
      ∀ (k v : String) (p : String × String), (k, v) ∈ fs → p ∈ fs → p.1 = k → p = (k, v) := by
  intro fs
  induction fs with
  | nil =>
    intro _ k v p hkv
    simp at hkv
  | cons q qs ih =>
    intro hnodup k v p hkv hp hpk
    rw [List.map_cons, List.nodup_cons] at hnodup
    rcases List.mem_cons.mp hkv with h1 | h1 <;> rcases List.mem_cons.mp hp with h2 | h2
    · rw [h2, ← h1]
    · exfalso
      apply hnodup.1
      rw [← h1]
      exact List.mem_map.mpr ⟨p, h2, hpk⟩
    · exfalso
      apply hnodup.1
      rw [h2] at hpk
      rw [hpk]
      exact List.mem_map.mpr ⟨(k, v), h1, rfl⟩
    · exact ih hnodup.2 k v p h1 h2 hpk

theorem objSet_mem_self (fs : List (String × String)) (k v : String)
    (hmem : (k, v) ∈ fs) (hnodup : (fs.map Prod.fst).Nodup) : objSet fs k v = fs := by
  unfold objSet
  rw [if_pos (List.any_eq_true.mpr ⟨(k, v), hmem, by simp⟩)]
  have hid : ∀ p ∈ fs, (if p.1 = k then (k, v) else p) = p := by
    intro p hp
    by_cases hpk : p.1 = k
    · rw [if_pos hpk, nodup_key_eq fs hnodup k v p hmem hp hpk]
    · rw [if_neg hpk]
  rw [List.map_congr_left hid]
  exact List.map_id fs

/-! ### Encoding normalization (for claim C1) -/

theorem filterPairs_shape (flt : List (String × String)) :
    ∀ p ∈ filterPairs flt, ∃ k v, (k, v) ∈ flt ∧ v ≠ "" ∧ p = ("filters[" ++ k ++ "]", v) := by
  intro p hp
  unfold filterPairs at hp
  rw [List.mem_filterMap] at hp
  obtain ⟨kv, hkv, hf⟩ := hp
  by_cases hv : kv.2 = ""
  · rw [if_pos hv] at hf
    exact absurd hf (by simp)
  · rw [if_neg hv] at hf
    refine ⟨kv.1, kv.2, by simpa using hkv, hv, ?_⟩
    have := Option.some_inj.mp hf
    rw [← this]

theorem foldl_urlSet_filters :
    ∀ (fs acc : List (String × String)),
      (∀ kv ∈ fs, ∀ p ∈ acc, p.1 ≠ "filters[" ++ kv.1 ++ "]") →
      (fs.map Prod.fst).Nodup →
      fs.foldl (fun acc2 kv => if kv.2 = "" then acc2
        else urlSet acc2 ("filters[" ++ kv.1 ++ "]") kv.2) acc = acc ++ filterPairs fs := by
  intro fs
  induction fs with
  | nil =>
    intro acc _ _
    show acc = acc ++ filterPairs []
    rw [show filterPairs [] = [] from rfl, List.append_nil]
  | cons kv fs ih =>
    intro acc hfresh hnodup
    rw [List.foldl_cons]
    rw [List.map_cons, List.nodup_cons] at hnodup
    by_cases hv : kv.2 = ""
    · rw [if_pos hv, ih acc (fun kv2 h2 p hp => hfresh kv2 (List.mem_cons_of_mem kv h2) p hp)
        hnodup.2]
      have hfp : filterPairs (kv :: fs) = filterPairs fs := by
        unfold filterPairs
        rw [List.filterMap_cons]
        simp [hv]
      rw [hfp]
    · rw [if_neg hv, urlSet_append _ _ acc (fun p hp => hfresh kv (List.mem_cons_self kv fs) p hp)]
      rw [ih (acc ++ [("filters[" ++ kv.1 ++ "]", kv.2)]) ?fresh hnodup.2]
      · rw [List.append_assoc]
        have hfp : filterPairs (kv :: fs) =
            ("filters[" ++ kv.1 ++ "]", kv.2) :: filterPairs fs := by
          unfold filterPairs
          rw [List.filterMap_cons]
          simp [hv]
        rw [hfp]
        rfl
      case fresh =>
        intro kv2 h2 p hp
        rcases List.mem_append.mp hp with hyp | hyp
        · exact hfresh kv2 (List.mem_cons_of_mem kv h2) p hyp
        · have hpp : p = ("filters[" ++ kv.1 ++ "]", kv.2) := by simpa using hyp
          rw [hpp]
          intro hc
          have heq := filterKey_inj _ _ hc
          exact hnodup.1 (heq.symm ▸ List.mem_map.mpr ⟨kv2, h2, rfl⟩)

/-! ### Decoding lemmas (for claims C1 and C9) -/

theorem decodeFilterStep_none (fs : List (String × String)) (k1 v1 : String)
    (h : matchFilterKey k1 = none) : decodeFilterStep fs (k1, v1) = fs := by
  unfold decodeFilterStep
  rw [show (k1, v1).1 = k1 from rfl, h]

theorem decode_fold_filterPairs :
    ∀ sub flt : List (String × String), (∀ kv ∈ sub, kv ∈ flt) →
      (flt.map Prod.fst).Nodup →
      (filterPairs sub).foldl decodeFilterStep flt = flt := by
  intro sub
  induction sub with
  | nil =>
    intro flt _ _
    rfl
  | cons kv rest ih =>
    intro flt hsub hnodup
    by_cases hv : kv.2 = ""
    · have hfp : filterPairs (kv :: rest) = filterPairs rest := by
        unfold filterPairs
        rw [List.filterMap_cons]
        simp [hv]
      rw [hfp]
      exact ih flt (fun x hx => hsub x (List.mem_cons_of_mem kv hx)) hnodup
    · have hfp : filterPairs (kv :: rest) =
          ("filters[" ++ kv.1 ++ "]", kv.2) :: filterPairs rest := by
        unfold filterPairs
        rw [List.filterMap_cons]
        simp [hv]
      rw [hfp, List.foldl_cons]
      have hstep : decodeFilterStep flt ("filters[" ++ kv.1 ++ "]", kv.2) = flt := by
        unfold decodeFilterStep
        rw [show ("filters[" ++ kv.1 ++ "]", kv.2).1 = "filters[" ++ kv.1 ++ "]" from rfl,
          matchFilterKey_encode]
        by_cases hk : kv.1.data = []
        · rw [if_pos hk]
        · rw [if_neg hk]
          show objSet flt kv.1 kv.2 = flt
          exact objSet_mem_self flt kv.1 kv.2
            (by simpa using hsub kv (List.mem_cons_self kv rest)) hnodup
      rw [hstep]
      exact ih flt (fun x hx => hsub x (List.mem_cons_of_mem kv hx)) hnodup

/-! ### Claim C1: the codec round trip -/

/-- C1 (amended): for every valid TableState — page and pageSize at
least 1, any query string, filter values non-empty with the unique keys a
JS object guarantees, and the sort, when present, carrying an asc or desc
direction and a key without a colon — decoding the encoded parameters
with the state itself as fallback reconstructs the state exactly.  (The
colon restriction on the sort key is forced: decoding splits the sort
value at its first colon, see the counterexample.) -/
theorem codec_round_trip (s : State)
    (hpage : 1 ≤ s.page) (hsize : 1 ≤ s.pageSize)
    (hkeys : (s.filters.map Prod.fst).Nodup)
    (hfv : ∀ kv ∈ s.filters, kv.2 ≠ "")
    (hsort : match s.sort with
      | none => True
      | some so => (so.dir = "asc" ∨ so.dir = "desc") ∧ ∀ c ∈ so.key.data, c ≠ ':') :
    readFromUrl (defaultParams s) s = s := by
  obtain ⟨pg, psz, qr, srt, flt⟩ := s
  simp only at hpage hsize hkeys hfv hsort
  have hfk : ∀ fixed : String, fixed.data.head? ≠ some 'f' →
      ∀ p ∈ filterPairs flt, p.1 ≠ fixed := by
    intro fixed hf p hp
    obtain ⟨k, v, _, _, hpe⟩ := filterPairs_shape flt p hp
    rw [hpe]
    exact filterKey_ne_of_head k fixed hf
  rcases srt with _ | so
  · by_cases hq : qr = ""
    · -- no sort, empty query
      have hfreshbase : ∀ kv ∈ flt, ∀ p ∈ ([("page", intToString pg),
          ("pageSize", intToString psz)] : List (String × String)),
          p.1 ≠ "filters[" ++ kv.1 ++ "]" := by
        intro kv _ p hp
        simp only [List.mem_cons, List.not_mem_nil, or_false] at hp
        rcases hp with h | h
        · rw [h]
          exact Ne.symm (filterKey_ne_of_head kv.1 "page" (by decide))
        · rw [h]
          exact Ne.symm (filterKey_ne_of_head kv.1 "pageSize" (by decide))
      have hparams : defaultParams ⟨pg, psz, qr, none, flt⟩ =
          ([("page", intToString pg), ("pageSize", intToString psz)] ++ filterPairs flt) := by
        have hnorm : defaultParams ⟨pg, psz, qr, none, flt⟩ =
            flt.foldl (fun acc kv => if kv.2 = "" then acc
              else urlSet acc ("filters[" ++ kv.1 ++ "]") kv.2)
              [("page", intToString pg), ("pageSize", intToString psz)] := by
          unfold defaultParams
          simp [urlSet, hq]
        rw [hnorm]
        exact foldl_urlSet_filters flt _ hfreshbase hkeys
      rw [hparams]
      simp only [readFromUrl, List.cons_append, List.nil_append, State.mk.injEq]
      refine ⟨?_, ?_, ?_, ?_, ?_⟩
      · rw [getParam_cons_eq]
        show jsOrInt (jsParseInt (intToString pg)) pg = pg
        rw [jsParseInt_intToString pg (by omega)]
        show (if pg = 0 then pg else pg) = pg
        split <;> rfl
      · rw [getParam_cons_ne "page" _ _ _ (by decide), getParam_cons_eq]
        show jsOrInt (jsParseInt (intToString psz)) psz = psz
        rw [jsParseInt_intToString psz (by omega)]
        show (if psz = 0 then psz else psz) = psz
        split <;> rfl
      · rw [getParam_cons_ne "page" _ _ _ (by decide),
          getParam_cons_ne "pageSize" _ _ _ (by decide),
          getParam_none "q" _ (hfk "q" (by decide))]
        rfl
      · rw [getParam_cons_ne "page" _ _ _ (by decide),
          getParam_cons_ne "pageSize" _ _ _ (by decide),
          getParam_none "sort" _ (hfk "sort" (by decide))]
      · rw [List.foldl_cons, List.foldl_cons,
          decodeFilterStep_none flt "page" (intToString pg) (by decide),
          decodeFilterStep_none flt "pageSize" (intToString psz) (by decide)]
        exact decode_fold_filterPairs flt flt (fun x hx => hx) hkeys
    · -- no sort, non-empty query
      have hfreshbase : ∀ kv ∈ flt, ∀ p ∈ ([("page", intToString pg),
          ("pageSize", intToString psz), ("q", qr)] : List (String × String)),
          p.1 ≠ "filters[" ++ kv.1 ++ "]" := by
        intro kv _ p hp
        simp only [List.mem_cons, List.not_mem_nil, or_false] at hp
        rcases hp with h | h | h
        · rw [h]
          exact Ne.symm (filterKey_ne_of_head kv.1 "page" (by decide))
        · rw [h]
          exact Ne.symm (filterKey_ne_of_head kv.1 "pageSize" (by decide))
        · rw [h]
          exact Ne.symm (filterKey_ne_of_head kv.1 "q" (by decide))
      have hparams : defaultParams ⟨pg, psz, qr, none, flt⟩ =
          ([("page", intToString pg), ("pageSize", intToString psz), ("q", qr)] ++
            filterPairs flt) := by
        have hnorm : defaultParams ⟨pg, psz, qr, none, flt⟩ =
            flt.foldl (fun acc kv => if kv.2 = "" then acc
              else urlSet acc ("filters[" ++ kv.1 ++ "]") kv.2)
              [("page", intToString pg), ("pageSize", intToString psz), ("q", qr)] := by
          unfold defaultParams
          simp [urlSet, hq]
        rw [hnorm]
        exact foldl_urlSet_filters flt _ hfreshbase hkeys
      rw [hparams]
      simp only [readFromUrl, List.cons_append, List.nil_append, State.mk.injEq]
      refine ⟨?_, ?_, ?_, ?_, ?_⟩
      · rw [getParam_cons_eq]
        show jsOrInt (jsParseInt (intToString pg)) pg = pg
        rw [jsParseInt_intToString pg (by omega)]
        show (if pg = 0 then pg else pg) = pg
        split <;> rfl
      · rw [getParam_cons_ne "page" _ _ _ (by decide), getParam_cons_eq]
        show jsOrInt (jsParseInt (intToString psz)) psz = psz
        rw [jsParseInt_intToString psz (by omega)]
        show (if psz = 0 then psz else psz) = psz
        split <;> rfl
      · rw [getParam_cons_ne "page" _ _ _ (by decide),
          getParam_cons_ne "pageSize" _ _ _ (by decide), getParam_cons_eq]
        rfl
      · rw [getParam_cons_ne "page" _ _ _ (by decide),
          getParam_cons_ne "pageSize" _ _ _ (by decide),
          getParam_cons_ne "q" _ _ _ (by decide),
          getParam_none "sort" _ (hfk "sort" (by decide))]
      · rw [List.foldl_cons, List.foldl_cons, List.foldl_cons,
          decodeFilterStep_none flt "page" (intToString pg) (by decide),
          decodeFilterStep_none flt "pageSize" (intToString psz) (by decide),
          decodeFilterStep_none flt "q" qr (by decide)]
        exact decode_fold_filterPairs flt flt (fun x hx => hx) hkeys
  · obtain ⟨hdir, hkey⟩ := hsort
    have hdc : ∀ c ∈ so.dir.data, c ≠ ':' := by
      rcases hdir with h | h <;> rw [h] <;> decide
    have hde : so.dir ≠ "" := by
      rcases hdir with h | h <;> rw [h] <;> decide
    by_cases hq : qr = ""
    · -- sort present, empty query
      have hfreshbase : ∀ kv ∈ flt, ∀ p ∈ ([("page", intToString pg),
          ("pageSize", intToString psz), ("sort", so.key ++ ":" ++ so.dir)] :
            List (String × String)), p.1 ≠ "filters[" ++ kv.1 ++ "]" := by
        intro kv _ p hp
        simp only [List.mem_cons, List.not_mem_nil, or_false] at hp
        rcases hp with h | h | h
        · rw [h]
          exact Ne.symm (filterKey_ne_of_head kv.1 "page" (by decide))
        · rw [h]
          exact Ne.symm (filterKey_ne_of_head kv.1 "pageSize" (by decide))
        · rw [h]
          exact Ne.symm (filterKey_ne_of_head kv.1 "sort" (by decide))
      have hparams : defaultParams ⟨pg, psz, qr, some so, flt⟩ =
          ([("page", intToString pg), ("pageSize", intToString psz),
            ("sort", so.key ++ ":" ++ so.dir)] ++ filterPairs flt) := by
        have hnorm : defaultParams ⟨pg, psz, qr, some so, flt⟩ =
            flt.foldl (fun acc kv => if kv.2 = "" then acc
              else urlSet acc ("filters[" ++ kv.1 ++ "]") kv.2)
              [("page", intToString pg), ("pageSize", intToString psz),
                ("sort", so.key ++ ":" ++ so.dir)] := by
          unfold defaultParams
          simp [urlSet, hq]
        rw [hnorm]
        exact foldl_urlSet_filters flt _ hfreshbase hkeys
      rw [hparams]
      simp only [readFromUrl, List.cons_append, List.nil_append, State.mk.injEq]
      refine ⟨?_, ?_, ?_, ?_, ?_⟩
      · rw [getParam_cons_eq]
        show jsOrInt (jsParseInt (intToString pg)) pg = pg
        rw [jsParseInt_intToString pg (by omega)]
        show (if pg = 0 then pg else pg) = pg
        split <;> rfl
      · rw [getParam_cons_ne "page" _ _ _ (by decide), getParam_cons_eq]
        show jsOrInt (jsParseInt (intToString psz)) psz = psz
        rw [jsParseInt_intToString psz (by omega)]
        show (if psz = 0 then psz else psz) = psz
        split <;> rfl
      · rw [getParam_cons_ne "page" _ _ _ (by decide),
          getParam_cons_ne "pageSize" _ _ _ (by decide),
          getParam_cons_ne "sort" _ _ _ (by decide),
          getParam_none "q" _ (hfk "q" (by decide))]
        rfl
      · rw [getParam_cons_ne "page" _ _ _ (by decide),
          getParam_cons_ne "pageSize" _ _ _ (by decide), getParam_cons_eq]
        show (if so.key ++ ":" ++ so.dir = "" then some so
          else some (SortSpec.mk (splitColonHead (so.key ++ ":" ++ so.dir))
            (jsOrStr (splitColonSecond (so.key ++ ":" ++ so.dir)) "asc"))) = some so
        rw [if_neg (sortValue_ne_empty _ _),
          splitColonHead_encode so.key so.dir hkey,
          splitColonSecond_encode so.key so.dir hkey hdc]
        show some (SortSpec.mk so.key (if so.dir = "" then "asc" else so.dir)) = some so
        rw [if_neg hde]
      · rw [List.foldl_cons, List.foldl_cons, List.foldl_cons,
          decodeFilterStep_none flt "page" (intToString pg) (by decide),
          decodeFilterStep_none flt "pageSize" (intToString psz) (by decide),
          decodeFilterStep_none flt "sort" (so.key ++ ":" ++ so.dir) (by decide)]
        exact decode_fold_filterPairs flt flt (fun x hx => hx) hkeys
    · -- sort present, non-empty query
      have hfreshbase : ∀ kv ∈ flt, ∀ p ∈ ([("page", intToString pg),
          ("pageSize", intToString psz), ("q", qr), ("sort", so.key ++ ":" ++ so.dir)] :
            List (String × String)), p.1 ≠ "filters[" ++ kv.1 ++ "]" := by
        intro kv _ p hp
        simp only [List.mem_cons, List.not_mem_nil, or_false] at hp
        rcases hp with h | h | h | h
        · rw [h]
          exact Ne.symm (filterKey_ne_of_head kv.1 "page" (by decide))
        · rw [h]
          exact Ne.symm (filterKey_ne_of_head kv.1 "pageSize" (by decide))
        · rw [h]
          exact Ne.symm (filterKey_ne_of_head kv.1 "q" (by decide))
        · rw [h]
          exact Ne.symm (filterKey_ne_of_head kv.1 "sort" (by decide))
      have hparams : defaultParams ⟨pg, psz, qr, some so, flt⟩ =
          ([("page", intToString pg), ("pageSize", intToString psz), ("q", qr),
            ("sort", so.key ++ ":" ++ so.dir)] ++ filterPairs flt) := by
        have hnorm : defaultParams ⟨pg, psz, qr, some so, flt⟩ =
            flt.foldl (fun acc kv => if kv.2 = "" then acc
              else urlSet acc ("filters[" ++ kv.1 ++ "]") kv.2)
              [("page", intToString pg), ("pageSize", intToString psz), ("q", qr),
                ("sort", so.key ++ ":" ++ so.dir)] := by
          unfold defaultParams
          simp [urlSet, hq]
        rw [hnorm]
        exact foldl_urlSet_filters flt _ hfreshbase hkeys
      rw [hparams]
      simp only [readFromUrl, List.cons_append, List.nil_append, State.mk.injEq]
      refine ⟨?_, ?_, ?_, ?_, ?_⟩
      · rw [getParam_cons_eq]
        show jsOrInt (jsParseInt (intToString pg)) pg = pg
        rw [jsParseInt_intToString pg (by omega)]
        show (if pg = 0 then pg else pg) = pg
        split <;> rfl
      · rw [getParam_cons_ne "page" _ _ _ (by decide), getParam_cons_eq]
        show jsOrInt (jsParseInt (intToString psz)) psz = psz
        rw [jsParseInt_intToString psz (by omega)]
        show (if psz = 0 then psz else psz) = psz
        split <;> rfl
      · rw [getParam_cons_ne "page" _ _ _ (by decide),
          getParam_cons_ne "pageSize" _ _ _ (by decide), getParam_cons_eq]
        rfl
      · rw [getParam_cons_ne "page" _ _ _ (by decide),
          getParam_cons_ne "pageSize" _ _ _ (by decide),
          getParam_cons_ne "q" _ _ _ (by decide), getParam_cons_eq]
        show (if so.key ++ ":" ++ so.dir = "" then some so
          else some (SortSpec.mk (splitColonHead (so.key ++ ":" ++ so.dir))
            (jsOrStr (splitColonSecond (so.key ++ ":" ++ so.dir)) "asc"))) = some so
        rw [if_neg (sortValue_ne_empty _ _),
          splitColonHead_encode so.key so.dir hkey,
          splitColonSecond_encode so.key so.dir hkey hdc]
        show some (SortSpec.mk so.key (if so.dir = "" then "asc" else so.dir)) = some so
        rw [if_neg hde]
      · rw [List.foldl_cons, List.foldl_cons, List.foldl_cons, List.foldl_cons,
          decodeFilterStep_none flt "page" (intToString pg) (by decide),
          decodeFilterStep_none flt "pageSize" (intToString psz) (by decide),
          decodeFilterStep_none flt "q" qr (by decide),
          decodeFilterStep_none flt "sort" (so.key ++ ":" ++ so.dir) (by decide)]
        exact decode_fold_filterPairs flt flt (fun x hx => hx) hkeys

/-- Witness for C1 at a concrete state with a page, a search text, a sort
and one filter. -/
theorem codec_round_trip_witness :
    readFromUrl (defaultParams ⟨2, 10, "ab", some ⟨"name", "desc"⟩, [("status", "active")]⟩)
        ⟨2, 10, "ab", some ⟨"name", "desc"⟩, [("status", "active")]⟩ =
      ⟨2, 10, "ab", some ⟨"name", "desc"⟩, [("status", "active")]⟩ :=
  codec_round_trip ⟨2, 10, "ab", some ⟨"name", "desc"⟩, [("status", "active")]⟩
    (by decide) (by decide) (by decide) (by decide) (by decide)

/-- C1 counterexample: for the valid state with sort key a:b (a plain
string key containing a colon) the decoder splits the encoded sort value
a:b:asc at its first colon, reconstructing key a and direction b, so the
round trip as claimed fails. -/
theorem codec_round_trip_ce :
    readFromUrl (defaultParams ⟨1, 10, "", some ⟨"a:b", "asc"⟩, []⟩)
        ⟨1, 10, "", some ⟨"a:b", "asc"⟩, []⟩ ≠
      ⟨1, 10, "", some ⟨"a:b", "asc"⟩, []⟩ := by
  decide

/-! ### Claim C9: URL decoding merges filters -/

theorem foldl_decode_eq (ps : List (String × String)) :
    ∀ fb : List (String × String),
      ps.foldl decodeFilterStep fb =
        (decodedPairs ps).foldl (fun a kv => objSet a kv.1 kv.2) fb := by
  induction ps with
  | nil => intro fb; rfl
  | cons kv ps ih =>
    intro fb
    rw [List.foldl_cons]
    cases hm : matchFilterKey kv.1 with
    | none =>
      have hstep : decodeFilterStep fb kv = fb := by
        unfold decodeFilterStep
        rw [hm]
      have hdp : decodedPairs (kv :: ps) = decodedPairs ps := by
        unfold decodedPairs
        rw [List.filterMap_cons, hm]
        rfl
      rw [hstep, ih fb, hdp]
    | some name =>
      have hstep : decodeFilterStep fb kv = objSet fb name kv.2 := by
        unfold decodeFilterStep
        rw [hm]
      have hdp : decodedPairs (kv :: ps) = (name, kv.2) :: decodedPairs ps := by
        unfold decodedPairs
        rw [List.filterMap_cons, hm]
        rfl
      rw [hstep, ih, hdp, List.foldl_cons]

theorem lookupF_foldl_objSet (l : List (String × String)) :
    ∀ (acc : List (String × String)) (k : String),
      lookupF (l.foldl (fun a kv => objSet a kv.1 kv.2) acc) k =
        match l.reverse.find? (fun p => p.1 == k) with
        | some p => some p.2
        | none => lookupF acc k := by
  induction l with
  | nil => intro acc k; rfl
  | cons q l ih =>
    intro acc k
    rw [List.foldl_cons, ih (objSet acc q.1 q.2) k, List.reverse_cons, List.find?_append]
    cases hf : l.reverse.find? (fun p => p.1 == k) with
    | some p => rw [Option.or_some]
    | none =>
      rw [Option.none_or, lookupF_objSet]
      by_cases hk : k = q.1
      · have h1 : List.find? (fun p => p.1 == k) [q] = some q :=
          List.find?_cons_of_pos _ (by simp [hk])
        rw [if_pos hk, h1]
      · have h1 : List.find? (fun p => p.1 == k) [q] = none := by
          rw [List.find?_cons_of_neg _ ?hne, List.find?_nil]
          case hne =>
            simp only [beq_iff_eq]
            exact fun h => hk h.symm
        rw [if_neg hk, h1]

/-- C9: decoding merges rather than replaces filters.  The decoded filter
map is the fallback overlaid, in parameter order, with every bracketed
filter pair of the query; a key reads back as the last URL value decoded
for it, or as its fallback value when no URL pair decodes to it — so a
filter present in the fallback but absent from the URL is always
retained. -/
theorem url_filters_merge (ps : List (String × String)) (fb : State) :
    (readFromUrl ps fb).filters =
        (decodedPairs ps).foldl (fun a kv => objSet a kv.1 kv.2) fb.filters ∧
      (∀ k, lookupF (readFromUrl ps fb).filters k =
        match (decodedPairs ps).reverse.find? (fun p => p.1 == k) with
        | some p => some p.2
        | none => lookupF fb.filters k) ∧
      (∀ k, (∀ p ∈ decodedPairs ps, p.1 ≠ k) →
        lookupF (readFromUrl ps fb).filters k = lookupF fb.filters k) := by
  have hfold : (readFromUrl ps fb).filters = ps.foldl decodeFilterStep fb.filters := rfl
  refine ⟨?_, ?_, ?_⟩
  · rw [hfold]
    exact foldl_decode_eq ps fb.filters
  · intro k
    rw [hfold, foldl_decode_eq, lookupF_foldl_objSet]
  · intro k hk
    rw [hfold, foldl_decode_eq, lookupF_foldl_objSet]
    have hnone : (decodedPairs ps).reverse.find? (fun p => p.1 == k) = none := by
      rw [List.find?_eq_none]
      intro x hx
      simp [hk x (List.mem_reverse.mp hx)]
    rw [hnone]

/-- Witness for C9: a fallback filter absent from the URL is retained. -/
theorem url_filters_merge_witness :
    lookupF (readFromUrl [("q", "x")] ⟨1, 10, "", none, [("status", "trial")]⟩).filters
        "status" = lookupF [("status", "trial")] "status" :=
  (url_filters_merge [("q", "x")] ⟨1, 10, "", none, [("status", "trial")]⟩).2.2 "status"
    (by decide)

/-! ### Endpoint lemmas (claims C4 and C7) -/

theorem length_sortStep (sortV : String) (data : List Row) :
    (sortStep sortV data).length = data.length := by
  unfold sortStep
  split
  · rfl
  · exact List.length_mergeSort data

theorem jsSlice_nonneg (l : List Row) (s ps : Int) (hs : 0 ≤ s) (hps : 0 ≤ ps) :
    jsSlice l (some s) (some (s + ps)) = (l.drop s.toNat).take ps.toNat := by
  unfold jsSlice jsSliceIdx
  show List.drop (if s < 0 then l.length - (-s).toNat else min s.toNat l.length)
      (List.take (if s + ps < 0 then l.length - (-(s + ps)).toNat
        else min (s + ps).toNat l.length) l) =
    List.take ps.toNat (List.drop s.toNat l)
  rw [if_neg (by omega), if_neg (by omega)]
  have h1 : (s + ps).toNat = s.toNat + ps.toNat := by omega
  rw [h1]
  by_cases hsl : s.toNat ≤ l.length
  · rw [Nat.min_def, if_pos hsl, List.drop_take]
    by_cases hel : s.toNat + ps.toNat ≤ l.length
    · rw [Nat.min_def, if_pos hel]
      congr 1
      omega
    · rw [Nat.min_def, if_neg hel]
      have e1 : List.take (l.length - s.toNat) (List.drop s.toNat l) = List.drop s.toNat l :=
        List.take_of_length_le (by rw [List.length_drop])
      have e2 : List.take ps.toNat (List.drop s.toNat l) = List.drop s.toNat l :=
        List.take_of_length_le (by rw [List.length_drop]; omega)
      rw [e1, e2]
  · rw [Nat.min_def, if_neg hsl,
      List.drop_eq_nil_of_le (by rw [List.length_take]; omega),
      List.drop_eq_nil_of_le (by omega), List.take_nil]

/-! ### Claim C4: the mock endpoint pipeline -/

/-- C4: the handler searches, then filters, then sorts, and slices last:
the returned total is the length of the searched-and-filtered set before
any slicing — an expression free of page and pageSize, so equal for any
two requests agreeing on q, sort and filters — and items is exactly the
window [(page-1)*pageSize, page*pageSize) of the sorted result whenever
the normalized page and pageSize are numbers (a NaN from an unparseable
parameter never reaches the total). -/
theorem handler_pipeline (rows : List Row) (query : List (String × QVal)) :
    (handler rows query).total =
        (filterStep (handlerFilters query)
          (searchStep (jsToLower (qval (qGet query "q") "")) rows)).length ∧
      (∀ query2 : List (String × QVal),
        qval (qGet query2 "q") "" = qval (qGet query "q") "" →
        qval (qGet query2 "sort") "" = qval (qGet query "sort") "" →
        handlerFilters query2 = handlerFilters query →
        (handler rows query2).total = (handler rows query).total) ∧
      (∀ p ps : Int, (handler rows query).page = some p →
        (handler rows query).pageSize = some ps →
        (handler rows query).items =
          ((sortStep (qval (qGet query "sort") "")
            (filterStep (handlerFilters query)
              (searchStep (jsToLower (qval (qGet query "q") "")) rows))).drop
                ((p - 1) * ps).toNat).take ps.toNat) := by
  have htot : ∀ query3 : List (String × QVal), (handler rows query3).total =
      (filterStep (handlerFilters query3)
        (searchStep (jsToLower (qval (qGet query3 "q") "")) rows)).length := by
    intro query3
    show (sortStep (qval (qGet query3 "sort") "")
      (filterStep (handlerFilters query3)
        (searchStep (jsToLower (qval (qGet query3 "q") "")) rows))).length = _
    rw [length_sortStep]
  refine ⟨htot query, ?_, ?_⟩
  · intro query2 hq hsort hf
    rw [htot query2, htot query, hq, hf]
  · intro p ps hp hps
    have hp1 : 1 ≤ p := by
      have hpv : (handler rows query).page =
          jsMaxO 1 (jsParseInt (qval (qGet query "page") "1")) := rfl
      rw [hpv] at hp
      cases hn : jsParseInt (qval (qGet query "page") "1") with
      | none =>
        rw [hn] at hp
        exact absurd hp (by simp [jsMaxO])
      | some n =>
        rw [hn] at hp
        have heq : Max.max 1 n = p := Option.some_inj.mp hp
        rw [← heq]
        exact le_max_left 1 n
    have hps1 : 1 ≤ ps := by
      have hpsv : (handler rows query).pageSize =
          jsMinO 100 (jsMaxO 1 (jsParseInt (qval (qGet query "pageSize") "10"))) := rfl
      rw [hpsv] at hps
      cases hn : jsParseInt (qval (qGet query "pageSize") "10") with
      | none =>
        rw [hn] at hps
        exact absurd hps (by simp [jsMaxO, jsMinO])
      | some n =>
        rw [hn] at hps
        have heq : Min.min 100 (Max.max 1 n) = ps := Option.some_inj.mp hps
        rw [← heq]
        exact le_min (by omega) (le_max_left 1 n)
    have hitems : (handler rows query).items =
        jsSlice (sortStep (qval (qGet query "sort") "")
            (filterStep (handlerFilters query)
              (searchStep (jsToLower (qval (qGet query "q") "")) rows)))
          ((handler rows query).page.bind (fun p2 => (handler rows query).pageSize.map
            (fun ps2 => (p2 - 1) * ps2)))
          (((handler rows query).page.bind (fun p2 => (handler rows query).pageSize.map
            (fun ps2 => (p2 - 1) * ps2))).bind
              (fun st => (handler rows query).pageSize.map (fun ps2 => st + ps2))) := rfl
    rw [hitems, hp, hps]
    show jsSlice _ (some ((p - 1) * ps)) (some ((p - 1) * ps + ps)) = _
    exact jsSlice_nonneg _ ((p - 1) * ps) ps (mul_nonneg (by omega) (by omega)) (by omega)

/-- Witness for C4: the slice conjunct at a concrete two-row request for
page 2 of size 1. -/
theorem handler_pipeline_witness :
    (handler [⟨"c_001", "User 1", "user1@example.com", "Analytica", "active", "2024-01-02"⟩,
        ⟨"c_002", "User 2", "user2@example.com", "ByteForge", "trial", "2024-01-01"⟩]
      [("page", QVal.str "2"), ("pageSize", QVal.str "1")]).items =
      ((sortStep (qval (qGet [("page", QVal.str "2"), ("pageSize", QVal.str "1")] "sort") "")
        (filterStep (handlerFilters [("page", QVal.str "2"), ("pageSize", QVal.str "1")])
          (searchStep (jsToLower (qval (qGet [("page", QVal.str "2"),
              ("pageSize", QVal.str "1")] "q") ""))
            [⟨"c_001", "User 1", "user1@example.com", "Analytica", "active", "2024-01-02"⟩,
              ⟨"c_002", "User 2", "user2@example.com", "ByteForge", "trial",
                "2024-01-01"⟩]))).drop
        ((((2 : Int) - 1) * 1).toNat)).take ((1 : Int).toNat) :=
  (handler_pipeline
      [⟨"c_001", "User 1", "user1@example.com", "Analytica", "active", "2024-01-02"⟩,
        ⟨"c_002", "User 2", "user2@example.com", "ByteForge", "trial", "2024-01-01"⟩]
      [("page", QVal.str "2"), ("pageSize", QVal.str "1")]).2.2 2 1 (by decide) (by decide)

/-! ### Claim C7: endpoint parameter normalization -/

/-- C7 (amended): whenever the page and pageSize parameters — after the
first-of-array selection and the "1"/"10" defaults for absent keys —
parse to numbers, the handler echoes page = max(1, n), at least 1, and
pageSize clamped into [1, 100].  A non-numeric parameter instead
produces NaN (echoed as null), see the counterexample. -/
theorem endpoint_normalization (rows : List Row) (query : List (String × QVal))
    (np ns : Int)
    (hn : jsParseInt (qval (qGet query "page") "1") = some np)
    (hs : jsParseInt (qval (qGet query "pageSize") "10") = some ns) :
    (handler rows query).page = some (Max.max 1 np) ∧
      (handler rows query).pageSize = some (Min.min 100 (Max.max 1 ns)) ∧
      (∀ p, (handler rows query).page = some p → 1 ≤ p) ∧
      (∀ ps, (handler rows query).pageSize = some ps → 1 ≤ ps ∧ ps ≤ 100) := by
  have hpage : (handler rows query).page = some (Max.max 1 np) := by
    show jsMaxO 1 (jsParseInt (qval (qGet query "page") "1")) = _
    rw [hn]
    rfl
  have hpsize : (handler rows query).pageSize = some (Min.min 100 (Max.max 1 ns)) := by
    show jsMinO 100 (jsMaxO 1 (jsParseInt (qval (qGet query "pageSize") "10"))) = _
    rw [hs]
    rfl
  refine ⟨hpage, hpsize, ?_, ?_⟩
  · intro p hp
    rw [hpage] at hp
    have heq := Option.some_inj.mp hp
    rw [← heq]
    exact le_max_left 1 np
  · intro ps hps
    rw [hpsize] at hps
    have heq := Option.some_inj.mp hps
    rw [← heq]
    exact ⟨le_min (by omega) (le_max_left 1 ns), min_le_left 100 (Max.max 1 ns)⟩

/-- Witness for C7 (amended): a repeated page parameter takes its first
value and an oversized pageSize clamps to 100. -/
theorem endpoint_normalization_witness :
    (handler [] [("page", QVal.arr ["3", "9"]), ("pageSize", QVal.str "500")]).pageSize =
      some 100 := by
  have h := (endpoint_normalization []
    [("page", QVal.arr ["3", "9"]), ("pageSize", QVal.str "500")] 3 500
    (by decide) (by decide)).2.1
  rw [h]
  decide

/-- C7 counterexample: with the non-numeric page parameter abc, parseInt
yields NaN, Math.max(1, NaN) stays NaN, and the echoed page is the NaN
(serialized as null), not an integer at least 1. -/
theorem endpoint_normalization_ce :
    (handler [] [("page", QVal.str "abc")]).page = none ∧
      ∀ p : Int, (handler [] [("page", QVal.str "abc")]).page = some p → False := by
  have hnone : (handler [] [("page", QVal.str "abc")]).page = none := by decide
  refine ⟨hnone, ?_⟩
  intro p hp
  rw [hnone] at hp
  exact Option.noConfusion hp

end CustomersTable
